import Mathlib

/-!
# lpi: a prefix-routed HTTP front end over ordered key-value stores

A shallow embedding of `src/common.go`, `src/lpi/main.go` and `src/api.go`.

* Go strings and byte slices are byte sequences (`Bytes`).
* The storage engine (goleveldb) is an external collaborator.  It is modelled
  by its documented contract: a store is a list of pairs kept in strictly
  ascending `bytes.Compare` order of their keys, `Write` applies a batch in
  record order or not at all, `Get` reports `ErrNotFound` for a missing key,
  and an iterator is a forward cursor over a `util.Range`.  Storage failures
  are inputs of the model (the `fault` arguments).
* A handler writes its envelopes to a `ResponseWriter`, modelled as the list
  of envelopes written, and the store calls it makes are recorded in a trace.
  What is written is the output of `json.Marshal`, held as the envelope a JSON
  reader decodes from it: `json.Marshal` writes a byte of a string that is not
  part of a valid UTF-8 encoding as U+FFFD.
* The client runs against an HTTP transport and `json.Unmarshal`, both given
  as parameters (`Env`); a failed type assertion is the run-time panic it
  raises.
-/

namespace Lpi

/-! ## Byte strings -/

/-- A Go `string` or `[]byte`: a finite sequence of bytes. -/
abbrev Bytes := List (Fin 256)

/-- A Go string literal, as its UTF-8 bytes. -/
def lit (s : String) : Bytes := s.toUTF8.data.toList.map (fun b => Fin.ofNat b.toNat)

/-- Go `bytes.Compare`, the comparer of the storage engine. -/
def bytesCompare : Bytes → Bytes → Ordering
  | [], [] => Ordering.eq
  | [], _ :: _ => Ordering.lt
  | _ :: _, [] => Ordering.gt
  | a :: as, b :: bs =>
    if a < b then Ordering.lt else if b < a then Ordering.gt else bytesCompare as bs

/-- Go `bytes.HasPrefix`. -/
def hasPrefix : Bytes → Bytes → Bool
  | _, [] => true
  | [], _ :: _ => false
  | a :: as, b :: bs => a = b && hasPrefix as bs

/-! ## src/common.go -/

/-- The struct `KVItemT`. -/
structure KVItemT where
  K : Bytes
  V : Bytes
  deriving DecidableEq, Repr

/-- The struct `PutReqBodyT`. -/
structure PutReqBodyT where
  KeyPrefix : Bytes
  KV : List KVItemT
  deriving DecidableEq, Repr

/-- The struct `DelReqBodyT`. -/
structure DelReqBodyT where
  KeyPrefix : Bytes
  Keys : List Bytes
  deriving DecidableEq, Repr

/-- A Go `interface{}` value as it occurs in `RespBodyT.Data`: the values the
server stores there (`bool`, `string`, `[]KVItemT`) and the values
`encoding/json` decodes into an `interface{}` (`nil`, `bool`, `float64`,
`string`, `[]interface{}`, `map[string]interface{}`). -/
inductive Any where
  | nil
  | bool (b : Bool)
  | float64 (bits : Nat)
  | string (s : Bytes)
  | slice (xs : List Any)
  | object (m : List (Bytes × Any))
  | kvItems (xs : List KVItemT)

/-- The struct `RespBodyT`, the response envelope. -/
structure RespBodyT where
  Code : Int
  Message : Bytes
  Data : Any

def StatusOK : Int := 200
def StatusBadRequest : Int := 400
def StatusForbidden : Int := 403
def StatusInternalServerError : Int := 500
def StatusNotFound : Int := 404
def StatusUnknownFailed : Int := 520

/-- The map `StatusMsgs`. -/
def StatusMsgs : List (Int × Bytes) :=
  [(StatusOK, lit "成功"),
   (StatusBadRequest, lit "非法的请求"),
   (StatusForbidden, lit "禁止访问"),
   (StatusInternalServerError, lit "服务器内部错误"),
   (StatusNotFound, lit "未找到指定资源")]

/-- Indexing a Go map: the value under the key, with whether it is present. -/
def mapIndex {κ : Type} [DecidableEq κ] {β : Type} : List (κ × β) → κ → Option β
  | [], _ => none
  | (k, v) :: rest, key => if k = key then some v else mapIndex rest key

/-- Assigning `m[key] = v` in a Go map. -/
def mapAssign {κ : Type} [DecidableEq κ] {β : Type} : List (κ × β) → κ → β → List (κ × β)
  | [], key, v => [(key, v)]
  | (k, w) :: rest, key, v =>
    if k = key then (k, v) :: rest else (k, w) :: mapAssign rest key v

/-- The expression `StatusMsgs[code]`: the empty string for a missing code. -/
def statusMsg (code : Int) : Bytes := (mapIndex StatusMsgs code).getD []

/-! ## encoding/json and unicode/utf8 -/

/-- The size the table `first` of `unicode/utf8` gives a leading byte at or
above `0x80`: 2, 3 or 4, and 0 for a byte that starts no encoding. -/
def firstSize (b0 : Fin 256) : Nat :=
  if 0xc2 ≤ b0 ∧ b0 ≤ 0xdf then 2
  else if 0xe0 ≤ b0 ∧ b0 ≤ 0xef then 3
  else if 0xf0 ≤ b0 ∧ b0 ≤ 0xf4 then 4
  else 0

/-- The lower end of the `acceptRange` of the second byte after a leading byte. -/
def acceptLo (b0 : Fin 256) : Fin 256 :=
  if b0 = 0xe0 then 0xa0 else if b0 = 0xf0 then 0x90 else 0x80

/-- The upper end of the `acceptRange` of the second byte after a leading byte. -/
def acceptHi (b0 : Fin 256) : Fin 256 :=
  if b0 = 0xed then 0x9f else if b0 = 0xf4 then 0x8f else 0xbf

/-- The function `utf8.DecodeRuneInString` on the string `b0 :: rest`, as the
size of the encoding it finds: 1 for an ASCII byte, 2 to 4 for a valid
multi-byte encoding, and 0 where it returns `(RuneError, 1)`. -/
def runeLen (b0 : Fin 256) (rest : Bytes) : Nat :=
  if b0 < 0x80 then 1
  else if firstSize b0 = 0 then 0
  else
    match rest with
    | [] => 0
    | b1 :: rest1 =>
      if b1 < acceptLo b0 ∨ acceptHi b0 < b1 then 0
      else if firstSize b0 ≤ 2 then 2
      else
        match rest1 with
        | [] => 0
        | b2 :: rest2 =>
          if b2 < 0x80 ∨ 0xbf < b2 then 0
          else if firstSize b0 ≤ 3 then 3
          else
            match rest2 with
            | [] => 0
            | b3 :: _ => if b3 < 0x80 ∨ 0xbf < b3 then 0 else 4

/-- The loop of `encodeState.string` in `encoding/json`, as the string a JSON
reader decodes from what it writes: a byte where `DecodeRuneInString` returns
`(RuneError, 1)` is written as `\ufffd`, the bytes `ef bf bd`, and every other
encoding is written so that it reads back unchanged.  `skip` counts the bytes
still to copy of the encoding the loop is in. -/
def jsonStringFrom : Nat → Bytes → Bytes
  | _, [] => []
  | skip + 1, b :: rest => b :: jsonStringFrom skip rest
  | 0, b :: rest =>
    match runeLen b rest with
    | 0 => 0xef :: 0xbf :: 0xbd :: jsonStringFrom 0 rest
    | n + 1 => b :: jsonStringFrom n rest

/-- A Go string as `json.Marshal` writes it and a JSON reader reads it back. -/
def jsonString (s : Bytes) : Bytes := jsonStringFrom 0 s

/-- The loop of `utf8.Valid`; `skip` counts the bytes still to pass of the
encoding the loop is in. -/
def validFrom : Nat → Bytes → Bool
  | _, [] => true
  | skip + 1, _ :: rest => validFrom skip rest
  | 0, b :: rest =>
    match runeLen b rest with
    | 0 => false
    | n + 1 => validFrom n rest

/-- The function `utf8.Valid`. -/
def validUTF8 (s : Bytes) : Bool := validFrom 0 s

/-- A `KVItemT` as `json.Marshal` writes it. -/
def jsonKVItem (kv : KVItemT) : KVItemT := { K := jsonString kv.K, V := jsonString kv.V }

mutual
/-- An `interface{}` value as `json.Marshal` writes it: the same value with
every string in it written by `encodeState.string`. -/
def jsonAny : Any → Any
  | Any.nil => Any.nil
  | Any.bool b => Any.bool b
  | Any.float64 bits => Any.float64 bits
  | Any.string s => Any.string (jsonString s)
  | Any.slice xs => Any.slice (jsonSlice xs)
  | Any.object m => Any.object (jsonObject m)
  | Any.kvItems xs => Any.kvItems (xs.map jsonKVItem)
/-- The elements of a slice as `json.Marshal` writes them. -/
def jsonSlice : List Any → List Any
  | [] => []
  | x :: xs => jsonAny x :: jsonSlice xs
/-- The entries of a map as `json.Marshal` writes them. -/
def jsonObject : List (Bytes × Any) → List (Bytes × Any)
  | [] => []
  | (k, v) :: rest => (jsonString k, jsonAny v) :: jsonObject rest
end

/-- The function `json.Marshal` on an envelope, as the envelope a JSON reader
decodes from the bytes it returns: the code, and the message and the data with
every string as `encodeState.string` writes it. -/
def jsonMarshal (respBody : RespBodyT) : RespBodyT :=
  { Code := respBody.Code, Message := jsonString respBody.Message,
    Data := jsonAny respBody.Data }

/-! ## The storage engine -/

/-- The content of one store: its pairs, in ascending key order. -/
abbrev Content := List (Bytes × Bytes)

/-- The keys of a content are strictly ascending in `bytes.Compare` order. -/
def keysAscending : Content → Bool
  | [] => true
  | [_] => true
  | a :: b :: rest => bytesCompare a.1 b.1 = Ordering.lt && keysAscending (b :: rest)

/-- The value stored under a key. -/
def contentGet : Content → Bytes → Option Bytes
  | [], _ => none
  | (k, v) :: rest, key => if k = key then some v else contentGet rest key

/-- Store a pair, replacing the pair of an equal key. -/
def contentPut : Content → Bytes → Bytes → Content
  | [], key, val => [(key, val)]
  | (k, v) :: rest, key, val =>
    match bytesCompare key k with
    | Ordering.lt => (key, val) :: (k, v) :: rest
    | Ordering.eq => (key, val) :: rest
    | Ordering.gt => (k, v) :: contentPut rest key val

/-- Remove the pair of a key, if any. -/
def contentDelete : Content → Bytes → Content
  | [], _ => []
  | (k, v) :: rest, key =>
    if k = key then contentDelete rest key else (k, v) :: contentDelete rest key

/-- One record of a `leveldb.Batch`. -/
inductive BatchRecord where
  | put (k v : Bytes)
  | delete (k : Bytes)
  deriving DecidableEq, Repr

/-- A `leveldb.Batch`: its records in the order they were appended. -/
abbrev Batch := List BatchRecord

/-- The method `Batch.Put`. -/
def Batch.Put (bat : Batch) (k v : Bytes) : Batch := bat ++ [BatchRecord.put k v]

/-- The method `Batch.Delete`. -/
def Batch.Delete (bat : Batch) (k : Bytes) : Batch := bat ++ [BatchRecord.delete k]

/-- Apply one batch record to a content. -/
def applyRecord (c : Content) : BatchRecord → Content
  | BatchRecord.put k v => contentPut c k v
  | BatchRecord.delete k => contentDelete c k

/-- Apply the records of a batch in order. -/
def applyBatch (c : Content) (bat : Batch) : Content := bat.foldl applyRecord c

/-- An error value of the engine: `leveldb.ErrNotFound`, or a storage failure. -/
inductive DBError where
  | ErrNotFound
  | failure (msg : Bytes)
  deriving DecidableEq, Repr

/-- The method `Error()` of an engine error. -/
def DBError.Error : DBError → Bytes
  | DBError.ErrNotFound => lit "leveldb: not found"
  | DBError.failure msg => msg

/-- The method `DB.Write` on an open store: an empty batch returns `nil` before
any I/O; otherwise the batch is applied as a whole, or, on a storage failure,
not at all. -/
def DB.Write (c : Content) (bat : Batch) (fault : Option Bytes) : Content × Option DBError :=
  if bat.length = 0 then (c, none)
  else
    match fault with
    | some msg => (c, some (DBError.failure msg))
    | none => (applyBatch c bat, none)

/-- The method `DB.Get`: the value, `ErrNotFound` for a missing key, or a
storage failure. -/
def DB.Get (c : Content) (key : Bytes) (fault : Option Bytes) : Except DBError Bytes :=
  match fault with
  | some msg => Except.error (DBError.failure msg)
  | none =>
    match contentGet c key with
    | some v => Except.ok v
    | none => Except.error DBError.ErrNotFound

/-- The struct `util.Range`: `Start` inclusive, `Limit` exclusive, a nil bound
is no bound. -/
structure Range where
  Start : Option Bytes
  Limit : Option Bytes
  deriving DecidableEq, Repr

/-- The loop of `util.BytesPrefix`, about to examine index `i - 1`: the limit is
the prefix cut after its last byte below `0xff`, that byte incremented; it
stays nil when there is no such byte. -/
def bytesPrefixLimit (pfx : Bytes) : Nat → Option Bytes
  | 0 => none
  | i + 1 =>
    match pfx.get? i with
    | some c => if c < 0xff then some (pfx.take i ++ [c + 1]) else bytesPrefixLimit pfx i
    | none => bytesPrefixLimit pfx i

/-- The function `util.BytesPrefix`. -/
def BytesPrefix (pfx : Bytes) : Range :=
  { Start := some pfx, Limit := bytesPrefixLimit pfx pfx.length }

/-- An iterator of the engine: a forward cursor.  `pending` are the pairs at
and after the cursor, `cur` the pair the cursor is on, `faultIn` the number of
pairs the iterator still yields before a storage failure. -/
structure Iterator where
  pending : Content
  limit : Option Bytes
  cur : Option (Bytes × Bytes)
  faultIn : Option (Nat × Bytes)
  err : Option DBError

/-- The method `DB.NewIterator`: positioned before the first pair whose key is
not below `Start`. -/
def DB.NewIterator (c : Content) (r : Range) (fault : Option (Nat × Bytes)) : Iterator :=
  { pending :=
      match r.Start with
      | some start => c.dropWhile (fun e => bytesCompare e.1 start = Ordering.lt)
      | none => c
    limit := r.Limit
    cur := none
    faultIn := fault
    err := none }

/-- The key is before the end of the range. -/
def beforeLimit (limit : Option Bytes) (k : Bytes) : Bool :=
  match limit with
  | some l => bytesCompare k l = Ordering.lt
  | none => true

/-- The method `Iterator.Next`: move to the next pair; false at the end of the
range, and on a storage failure, which `Error` then reports. -/
def Iterator.Next (it : Iterator) : Bool × Iterator :=
  match it.err with
  | some _ => (false, it)
  | none =>
    match it.faultIn with
    | some (0, msg) =>
      (false, { it with cur := none, err := some (DBError.failure msg) })
    | faultIn =>
      match it.pending with
      | [] => (false, { it with cur := none })
      | (k, v) :: rest =>
        if beforeLimit it.limit k
        then (true, { it with pending := rest, cur := some (k, v),
                              faultIn := faultIn.map (fun f => (f.1 - 1, f.2)) })
        else (false, { it with pending := [], cur := none })

/-- The method `Iterator.Key`. -/
def Iterator.Key (it : Iterator) : Bytes := (it.cur.map (fun e => e.1)).getD []

/-- The method `Iterator.Value`. -/
def Iterator.Value (it : Iterator) : Bytes := (it.cur.map (fun e => e.2)).getD []

/-- The method `Iterator.Error`. -/
def Iterator.Error (it : Iterator) : Option DBError := it.err

/-! ## src/lpi/main.go -/

/-- A `*leveldb.DB`: the identity of an open store. -/
abbrev Handle := Nat

/-- The `http.ResponseWriter` of a request: the bodies written to it, each the
JSON document of an envelope, held as the envelope a JSON reader decodes from
it. -/
abbrev ResponseWriter := List RespBodyT

/-- The function `_respJSON`. -/
def _respJSON (resp : ResponseWriter) (data : List Any) : ResponseWriter :=
  let respBody : RespBodyT :=
    { Code := StatusOK, Message := statusMsg StatusOK, Data := Any.bool true }
  let respBody :=
    match data with
    | d :: _ => { respBody with Data := d }
    | [] => respBody
  let respBodyBytes := jsonMarshal respBody
  resp ++ [respBodyBytes]

/-- The function `_respJSONError`. -/
def _respJSONError (resp : ResponseWriter) (code : Int) (msgs : List Bytes) : ResponseWriter :=
  let respBody : RespBodyT :=
    { Code := code, Message := statusMsg code, Data := Any.bool false }
  let respBody :=
    match msgs with
    | m :: _ => { respBody with Message := m }
    | [] => respBody
  let respBodyBytes := jsonMarshal respBody
  resp ++ [respBodyBytes]

/-- The function `getDBByKeyPrefix`, on the global map `dbs`. -/
def getDBByKeyPrefix (dbs : List (Bytes × Handle)) (keyPrefix : Bytes) : Except Bytes Handle :=
  match mapIndex dbs keyPrefix with
  | some ldb => Except.ok ldb
  | none => Except.error (lit "不存在对应键前缀 " ++ keyPrefix ++ lit " 的leveldb数据库")

/-- The state the handlers run in: the global map `dbs` and the content of
each open store. -/
structure Server where
  dbs : List (Bytes × Handle)
  store : Handle → Content

/-- A call of a handler on a store. -/
inductive StoreOp where
  | write (db : Handle) (bat : Batch)
  | get (db : Handle) (key : Bytes)
  | newIterator (db : Handle) (r : Range)
  deriving DecidableEq, Repr

/-- What a handler did: the envelopes it wrote, the content of the stores
after it, and its store calls in order. -/
structure Handled where
  resp : ResponseWriter
  store : Handle → Content
  ops : List StoreOp

/-- The content of the stores after one of them changed. -/
def setStore (store : Handle → Content) (db : Handle) (c : Content) : Handle → Content :=
  fun h => if h = db then c else store h

/-- The body of a POST request as the handler sees it: `ioutil.ReadAll` failed,
`json.Unmarshal` returned an error, or the decoded value. -/
inductive Body (α : Type) where
  | readFailed
  | malformed
  | parsed (v : α)

/-- The handler `leveldbPut`. -/
def leveldbPut (s : Server) (body : Body PutReqBodyT) (fault : Option Bytes) : Handled :=
  match body with
  | Body.readFailed =>
    { resp := _respJSONError [] StatusBadRequest [lit "请求体读取失败"], store := s.store, ops := [] }
  | Body.malformed =>
    { resp := _respJSONError [] StatusBadRequest [lit "请求体解析失败"], store := s.store, ops := [] }
  | Body.parsed reqBody =>
    match getDBByKeyPrefix s.dbs reqBody.KeyPrefix with
    | Except.error err =>
      { resp := _respJSONError [] StatusBadRequest [err], store := s.store, ops := [] }
    | Except.ok db =>
      let bat : Batch := reqBody.KV.foldl (fun bat kv => bat.Put kv.K kv.V) []
      match DB.Write (s.store db) bat fault with
      | (c, some err) =>
        { resp := _respJSONError [] StatusInternalServerError [err.Error],
          store := setStore s.store db c, ops := [StoreOp.write db bat] }
      | (c, none) =>
        { resp := _respJSON [] [], store := setStore s.store db c,
          ops := [StoreOp.write db bat] }

/-- The handler `leveldbGet`, on the values of the query parameters `keyprefix`
and `key` (empty when the parameter is missing). -/
def leveldbGet (s : Server) (keyPrefix k : Bytes) (fault : Option Bytes) : Handled :=
  if keyPrefix = [] ∨ k = [] then
    { resp := _respJSONError [] StatusBadRequest [lit "缺少必要的请求参数"],
      store := s.store, ops := [] }
  else
    match getDBByKeyPrefix s.dbs keyPrefix with
    | Except.error err =>
      { resp := _respJSONError [] StatusBadRequest [err], store := s.store, ops := [] }
    | Except.ok db =>
      match DB.Get (s.store db) k fault with
      | Except.error err =>
        if err = DBError.ErrNotFound then
          { resp := _respJSONError [] StatusNotFound [lit "未找到对应值"],
            store := s.store, ops := [StoreOp.get db k] }
        else
          { resp := _respJSONError [] StatusInternalServerError [err.Error],
            store := s.store, ops := [StoreOp.get db k] }
      | Except.ok v =>
        { resp := _respJSON [] [Any.string v], store := s.store, ops := [StoreOp.get db k] }

/-- The loop `for iter.Next() { kvs = append(kvs, ...) }` of the two scan
handlers, with the number of `Next` calls it may still make. -/
def scanLoop : Nat → Iterator → List KVItemT → Option (List KVItemT × Iterator)
  | 0, _, _ => none
  | fuel + 1, iter, kvs =>
    match iter.Next with
    | (true, iter) => scanLoop fuel iter (kvs ++ [{ K := iter.Key, V := iter.Value }])
    | (false, iter) => some (kvs, iter)

/-- The part the two scan handlers share, from the iterator on: collect the
pairs, release the iterator, and answer by its error. -/
def scanReply (s : Server) (db : Handle) (r : Range) (fault : Option (Nat × Bytes)) :
    Option Handled :=
  let iter := DB.NewIterator (s.store db) r fault
  match scanLoop (iter.pending.length + 1) iter [] with
  | none => none
  | some (kvs, iter) =>
    match iter.Error with
    | some _ =>
      some { resp := _respJSONError [] StatusInternalServerError [lit "系统异常"],
             store := s.store, ops := [StoreOp.newIterator db r] }
    | none =>
      some { resp := _respJSON [] [Any.kvItems kvs], store := s.store,
             ops := [StoreOp.newIterator db r] }

/-- The handler `leveldbRangeGet`, on the values of the query parameters
`keyprefix`, `start` and `limit`.  The result is `none` only when the scan loop
does not finish within one `Next` call per stored pair and one more. -/
def leveldbRangeGet (s : Server) (keyPrefix start limit : Bytes)
    (fault : Option (Nat × Bytes)) : Option Handled :=
  if keyPrefix = [] ∨ start = [] ∨ limit = [] then
    some { resp := _respJSONError [] StatusBadRequest [lit "缺少必要的请求参数"],
           store := s.store, ops := [] }
  else
    match getDBByKeyPrefix s.dbs keyPrefix with
    | Except.error err =>
      some { resp := _respJSONError [] StatusBadRequest [err], store := s.store, ops := [] }
    | Except.ok db =>
      scanReply s db { Start := some start, Limit := some limit } fault

/-- The handler `leveldbGetByPrefix`, on the values of the query parameters
`keyprefix` and `key`. -/
def leveldbGetByPrefix (s : Server) (keyPrefix key : Bytes)
    (fault : Option (Nat × Bytes)) : Option Handled :=
  if keyPrefix = [] ∨ key = [] then
    some { resp := _respJSONError [] StatusBadRequest [lit "缺少必要的请求参数"],
           store := s.store, ops := [] }
  else
    match getDBByKeyPrefix s.dbs keyPrefix with
    | Except.error err =>
      some { resp := _respJSONError [] StatusBadRequest [err], store := s.store, ops := [] }
    | Except.ok db =>
      scanReply s db (BytesPrefix key) fault

/-- The handler `leveldbDel`. -/
def leveldbDel (s : Server) (body : Body DelReqBodyT) (fault : Option Bytes) : Handled :=
  match body with
  | Body.readFailed =>
    { resp := _respJSONError [] StatusBadRequest [lit "请求体读取失败"], store := s.store, ops := [] }
  | Body.malformed =>
    { resp := _respJSONError [] StatusBadRequest [lit "请求体解析失败"], store := s.store, ops := [] }
  | Body.parsed reqBody =>
    match getDBByKeyPrefix s.dbs reqBody.KeyPrefix with
    | Except.error err =>
      { resp := _respJSONError [] StatusBadRequest [err], store := s.store, ops := [] }
    | Except.ok db =>
      let bat : Batch := reqBody.Keys.foldl (fun bat k => bat.Delete k) []
      match DB.Write (s.store db) bat fault with
      | (c, some err) =>
        { resp := _respJSONError [] StatusInternalServerError [err.Error],
          store := setStore s.store db c, ops := [StoreOp.write db bat] }
      | (c, none) =>
        { resp := _respJSON [] [], store := setStore s.store db c,
          ops := [StoreOp.write db bat] }

/-- The body of `initDB`, over the entries of `appConf.Leveldbs` in the order
the `range` visits them: `OpenFile` gives each store a fresh handle (`next`
counts the handles given out) and every listed prefix is assigned to it.  The
result is `none` when an `OpenFile` fails (`logrus.Fatalln` ends the process);
`opens` tells for each store name whether its `OpenFile` succeeds. -/
def initDBLoop (opens : Bytes → Bool) :
    List (Bytes × List Bytes) → Handle → List (Bytes × Handle) →
      Option (List (Bytes × Handle) × Handle)
  | [], next, dbs => some (dbs, next)
  | (dbName, keyPrefixs) :: rest, next, dbs =>
    if opens dbName then
      initDBLoop opens rest (next + 1)
        (keyPrefixs.foldl (fun dbs kp => mapAssign dbs kp next) dbs)
    else none

/-- The function `initDB`: the global map `dbs`, with the number of handles
opened (the handles are `0`, `1`, ... below it). -/
def initDB (opens : Bytes → Bool) (dbList : List (Bytes × List Bytes)) :
    Option (List (Bytes × Handle) × Handle) :=
  initDBLoop opens dbList 0 []

/-- The function `finishDB`: the handles it calls `Close` on, in order. -/
def finishDB (dbs : List (Bytes × Handle)) : List Handle :=
  dbs.map (fun e => e.2)

/-! ## src/api.go -/

/-- What the HTTP transport does with one request: the call fails, or a
response arrives with its status code and the body as `ioutil.ReadAll` returns
it (the bytes read, and the read error if any). -/
inductive HTTPReply where
  | failed (err : Bytes)
  | response (StatusCode : Int) (body : Bytes) (readErr : Option Bytes)

/-- The surroundings of the client: the global map `keyPrefix2APIBase`, the
reply of the HTTP transport to a GET of a URL, and `json.Unmarshal` into a
`*RespBodyT` (the target after the call, and the error it returns). -/
structure Env where
  keyPrefix2APIBase : List (Bytes × Bytes)
  transport : Bytes → HTTPReply
  jsonUnmarshal : Bytes → RespBodyT → RespBodyT × Option Bytes

/-- A diagnostic recorded with `logrus.Error`: its arguments. -/
inductive Diagnostic where
  | error (args : List Bytes)
  | errorResp (rBody : RespBodyT)

/-- What a client function did: its results, or the run-time panic that ended
it; the diagnostics it recorded; the URLs it sent to the transport. -/
structure Returned (α : Type) where
  ret : Except Bytes α
  logs : List Diagnostic
  calls : List Bytes

/-- The function `httpGet`, on the reply of the transport. -/
def httpGet (reply : HTTPReply) : Bytes × Option Bytes :=
  match reply with
  | HTTPReply.failed err => ([], some err)
  | HTTPReply.response StatusCode body readErr =>
    if StatusCode ≠ 200 then
      ([], some (lit "非正常响应，响应码为：" ++ lit (toString StatusCode)))
    else (body, readErr)

/-- The zero value of `RespBodyT`. -/
def zeroRespBodyT : RespBodyT := { Code := 0, Message := [], Data := Any.nil }

/-- The function `getJSON`, at the type `RespBodyT`: the decoded value, the
diagnostics recorded and the URLs requested. -/
def getJSON (env : Env) (url : Bytes) : RespBodyT × List Diagnostic × List Bytes :=
  let v := zeroRespBodyT
  match httpGet (env.transport url) with
  | (_, some err) => (v, [Diagnostic.error [err, url]], [url])
  | (respBody, none) =>
    if respBody.length = 0 then (v, [], [url])
    else
      match env.jsonUnmarshal respBody v with
      | (v, some err) => (v, [Diagnostic.error [err, url, respBody]], [url])
      | (v, none) => (v, [], [url])

/-- The function `getAPIByKeyPrefix`, with the diagnostics it records. -/
def getAPIByKeyPrefix (keyPrefix2APIBase : List (Bytes × Bytes)) (keyPrefix : Bytes) :
    Except Bytes Bytes × List Diagnostic :=
  match mapIndex keyPrefix2APIBase keyPrefix with
  | some apiBase => (Except.ok apiBase, [])
  | none =>
    let err := lit "不存在对应键前缀 " ++ keyPrefix ++ lit " 的leveldb API"
    (Except.error err, [Diagnostic.error [err]])

/-- The struct `LevelDBT`. -/
structure LevelDBT where
  KeyPrefix : Bytes

/-- The URL of `LeveldbGet`: `fmt.Sprintf("%s/leveldb/get/?keyprefix=%s&key=%s", ...)`. -/
def getURL (apiBase keyPrefix key : Bytes) : Bytes :=
  apiBase ++ lit "/leveldb/get/?keyprefix=" ++ keyPrefix ++ lit "&key=" ++ key

/-- The URL of `LeveldbRangeGet`. -/
def rangeGetURL (apiBase keyPrefix start limit : Bytes) : Bytes :=
  apiBase ++ lit "/leveldb/range-get/?keyprefix=" ++ keyPrefix ++ lit "&start=" ++ start
    ++ lit "&limit=" ++ limit

/-- The URL of `LeveldbGetByPrefix`. -/
def prefixGetURL (apiBase keyPrefix key : Bytes) : Bytes :=
  apiBase ++ lit "/leveldb/prefix-get/?keyprefix=" ++ keyPrefix ++ lit "&key=" ++ key

/-- The method `LevelDBT.LeveldbGet`. -/
def LevelDBT.LeveldbGet (env : Env) (ldb : LevelDBT) (key : Bytes) : Returned (Bytes × Bool) :=
  match getAPIByKeyPrefix env.keyPrefix2APIBase ldb.KeyPrefix with
  | (Except.error _, logs) => { ret := Except.ok ([], false), logs := logs, calls := [] }
  | (Except.ok apiBase, logs) =>
    let url := getURL apiBase ldb.KeyPrefix key
    match getJSON env url with
    | (rBody, logs2, calls) =>
      if rBody.Code ≠ StatusOK then
        { ret := Except.ok ([], false),
          logs := logs ++ logs2 ++
            (if rBody.Code ≠ StatusNotFound then [Diagnostic.errorResp rBody] else []),
          calls := calls }
      else
        match rBody.Data with
        | Any.string value =>
          { ret := Except.ok (value, true), logs := logs ++ logs2, calls := calls }
        | _ =>
          { ret := Except.error (lit "interface conversion: interface {} is not string"),
            logs := logs ++ logs2, calls := calls }

/-- One round of the loop over `iList` in the two scan methods: the assertions
`i.(map[string]interface{})`, `im["k"].(string)` and `im["v"].(string)`. -/
def decodeItem (i : Any) : Except Bytes KVItemT :=
  match i with
  | Any.object im =>
    match mapIndex im (lit "k") with
    | some (Any.string k) =>
      match mapIndex im (lit "v") with
      | some (Any.string v) => Except.ok { K := k, V := v }
      | _ => Except.error (lit "interface conversion: interface {} is not string")
    | _ => Except.error (lit "interface conversion: interface {} is not string")
  | _ => Except.error (lit "interface conversion: interface {} is not map[string]interface {}")

/-- The loop over `iList` in the two scan methods. -/
def decodeItems : List Any → List KVItemT → Except Bytes (List KVItemT)
  | [], kvs => Except.ok kvs
  | i :: rest, kvs =>
    match decodeItem i with
    | Except.ok kv => decodeItems rest (kvs ++ [kv])
    | Except.error p => Except.error p

/-- The part the two scan methods share, from the URL on. -/
def scanCall (env : Env) (logs : List Diagnostic) (url : Bytes) :
    Returned (List KVItemT × Bool) :=
  match getJSON env url with
  | (rBody, logs2, calls) =>
    if rBody.Code ≠ StatusOK then
      { ret := Except.ok ([], false),
        logs := logs ++ logs2 ++
          (if rBody.Code ≠ StatusNotFound then [Diagnostic.errorResp rBody] else []),
        calls := calls }
    else
      match rBody.Data with
      | Any.slice iList =>
        match decodeItems iList [] with
        | Except.ok kvs => { ret := Except.ok (kvs, true), logs := logs ++ logs2, calls := calls }
        | Except.error p => { ret := Except.error p, logs := logs ++ logs2, calls := calls }
      | _ =>
        { ret := Except.error (lit "interface conversion: interface {} is not []interface {}"),
          logs := logs ++ logs2, calls := calls }

/-- The method `LevelDBT.LeveldbRangeGet`. -/
def LevelDBT.LeveldbRangeGet (env : Env) (ldb : LevelDBT) (start limit : Bytes) :
    Returned (List KVItemT × Bool) :=
  match getAPIByKeyPrefix env.keyPrefix2APIBase ldb.KeyPrefix with
  | (Except.error _, logs) => { ret := Except.ok ([], false), logs := logs, calls := [] }
  | (Except.ok apiBase, logs) =>
    scanCall env logs (rangeGetURL apiBase ldb.KeyPrefix start limit)

/-- The method `LevelDBT.LeveldbGetByPrefix`. -/
def LevelDBT.LeveldbGetByPrefix (env : Env) (ldb : LevelDBT) (key : Bytes) :
    Returned (List KVItemT × Bool) :=
  match getAPIByKeyPrefix env.keyPrefix2APIBase ldb.KeyPrefix with
  | (Except.error _, logs) => { ret := Except.ok ([], false), logs := logs, calls := [] }
  | (Except.ok apiBase, logs) =>
    scanCall env logs (prefixGetURL apiBase ldb.KeyPrefix key)

/-! ## Definitions used to state the properties -/

/-- The keys of the content are pairwise ascending. -/
def KeysSorted (c : Content) : Prop :=
  c.Pairwise (fun a b => bytesCompare a.1 b.1 = Ordering.lt)

/-- A stored pair as the scan handlers list it. -/
def toKV (e : Bytes × Bytes) : KVItemT := { K := e.1, V := e.2 }

/-- The pairs of a content as a scan handler lists them in its JSON output. -/
def jsonPairs (c : Content) : List KVItemT := c.map (fun e => jsonKVItem (toKV e))

/-- Every key and value of the content is valid UTF-8. -/
def ContentUTF8 (c : Content) : Prop :=
  ∀ e ∈ c, validUTF8 e.1 = true ∧ validUTF8 e.2 = true

/-- The pairs of a content whose key lies in `[start, limit)`. -/
def rangePairs (c : Content) (start limit : Bytes) : Content :=
  c.filter (fun e => bytesCompare start e.1 ≠ Ordering.gt ∧ bytesCompare e.1 limit = Ordering.lt)

/-- The pairs of a content whose key begins with `p`. -/
def prefixPairs (c : Content) (p : Bytes) : Content :=
  c.filter (fun e => hasPrefix e.1 p)

/-- The upper bound of the keys that begin with `p`, in the words of the
specification: `p` cut after its last byte below `0xff`, that byte incremented;
no bound when every byte of `p` is `0xff`. -/
def increment : Bytes → Option Bytes
  | [] => none
  | a :: as =>
    match increment as with
    | some l => some (a :: l)
    | none => if a < 0xff then some [a + 1] else none

/-! ## Strings in the JSON output -/

theorem jsonStringFrom_of_valid (skip : Nat) (s : Bytes) (h : validFrom skip s = true) :
    jsonStringFrom skip s = s := by
  induction s generalizing skip with
  | nil => cases skip <;> rfl
  | cons b rest ih =>
    cases skip with
    | succ n =>
      simp only [validFrom] at h
      simp only [jsonStringFrom, ih n h]
    | zero =>
      simp only [validFrom] at h
      simp only [jsonStringFrom]
      cases hr : runeLen b rest with
      | zero => simp [hr] at h
      | succ n =>
        simp only [hr] at h
        simp only [ih n h]

/-- A string that is valid UTF-8 is written to the JSON output unchanged. -/
theorem jsonString_of_valid (s : Bytes) (h : validUTF8 s = true) : jsonString s = s :=
  jsonStringFrom_of_valid 0 s h

theorem jsonKVItem_of_valid (kv : KVItemT) (hk : validUTF8 kv.K = true)
    (hv : validUTF8 kv.V = true) : jsonKVItem kv = kv := by
  cases kv
  simp only [jsonKVItem] at *
  rw [jsonString_of_valid _ hk, jsonString_of_valid _ hv]

theorem jsonString_statusMsg_ok : jsonString (statusMsg StatusOK) = statusMsg StatusOK := by
  decide

theorem respJSON_eq (data : Any) :
    _respJSON [] [data] =
      [{ Code := StatusOK, Message := statusMsg StatusOK, Data := jsonAny data }] := by
  simp [_respJSON, jsonMarshal, jsonString_statusMsg_ok]

theorem respJSON_ack :
    _respJSON [] [] =
      [{ Code := StatusOK, Message := statusMsg StatusOK, Data := Any.bool true }] := by
  simp [_respJSON, jsonMarshal, jsonString_statusMsg_ok, jsonAny]

theorem respJSONError_eq (code : Int) (msg : Bytes) :
    _respJSONError [] code [msg] =
      [{ Code := code, Message := jsonString msg, Data := Any.bool false }] := by
  simp [_respJSONError, jsonMarshal, jsonAny]

/-! ## The order of keys -/

theorem bytesCompare_eq_iff (a b : Bytes) : bytesCompare a b = Ordering.eq ↔ a = b := by
  induction a generalizing b with
  | nil => cases b <;> simp [bytesCompare]
  | cons x xs ih =>
    cases b with
    | nil => simp [bytesCompare]
    | cons y ys =>
      simp only [bytesCompare]
      by_cases h1 : x < y
      · simp [h1, ne_of_lt h1]
      · by_cases h2 : y < x
        · simp [h1, h2, ne_of_gt h2]
        · have hxy : x = y := le_antisymm (not_lt.mp h2) (not_lt.mp h1)
          subst hxy
          simp [ih]

theorem bytesCompare_self (a : Bytes) : bytesCompare a a = Ordering.eq :=
  (bytesCompare_eq_iff a a).mpr rfl

theorem bytesCompare_gt_iff (a b : Bytes) :
    bytesCompare a b = Ordering.gt ↔ bytesCompare b a = Ordering.lt := by
  induction a generalizing b with
  | nil => cases b <;> simp [bytesCompare]
  | cons x xs ih =>
    cases b with
    | nil => simp [bytesCompare]
    | cons y ys =>
      simp only [bytesCompare]
      by_cases h1 : x < y
      · simp [h1, not_lt_of_gt h1]
      · by_cases h2 : y < x
        · simp [h1, h2]
        · simp [h1, h2, ih]

theorem bytesCompare_lt_trans (a b c : Bytes) (hab : bytesCompare a b = Ordering.lt)
    (hbc : bytesCompare b c = Ordering.lt) : bytesCompare a c = Ordering.lt := by
  induction a generalizing b c with
  | nil =>
    cases c with
    | nil => cases b <;> simp [bytesCompare] at hab hbc
    | cons z zs => simp [bytesCompare]
  | cons x xs ih =>
    cases b with
    | nil => simp [bytesCompare] at hab
    | cons y ys =>
      cases c with
      | nil => simp [bytesCompare] at hbc
      | cons z zs =>
        simp only [bytesCompare] at hab hbc ⊢
        by_cases hxy : x < y
        · by_cases hyz : y < z
          · simp [lt_trans hxy hyz]
          · by_cases hzy : z < y
            · simp [hyz, hzy] at hbc
            · have hyz' : y = z := le_antisymm (not_lt.mp hzy) (not_lt.mp hyz)
              subst hyz'
              simp [hxy]
        · by_cases hyx : y < x
          · simp [hxy, hyx] at hab
          · have hxy' : x = y := le_antisymm (not_lt.mp hyx) (not_lt.mp hxy)
            subst hxy'
            simp only [hxy, if_false] at hab
            by_cases hxz : x < z
            · simp [hxz]
            · by_cases hzx : z < x
              · simp [hxz, hzx] at hbc
              · simp only [hxz, hzx, if_false] at hbc ⊢
                exact ih ys zs hab hbc

theorem keysAscending_iff (c : Content) : keysAscending c = true ↔ KeysSorted c := by
  unfold KeysSorted
  induction c with
  | nil => simp [keysAscending]
  | cons a rest ih =>
    cases rest with
    | nil => simp [keysAscending]
    | cons b rest2 =>
      simp only [keysAscending, Bool.and_eq_true, decide_eq_true_eq, ih]
      constructor
      · rintro ⟨hab, hrest⟩
        refine List.pairwise_cons.mpr ⟨?_, hrest⟩
        intro e he
        rcases List.mem_cons.mp he with rfl | he2
        · exact hab
        · exact bytesCompare_lt_trans _ _ _ hab ((List.pairwise_cons.mp hrest).1 e he2)
      · intro h
        have h2 := List.pairwise_cons.mp h
        exact ⟨h2.1 b (List.mem_cons_self _ _), h2.2⟩

theorem takeWhile_eq_filter_of_sorted (p : Bytes × Bytes → Bool) (c : Content)
    (hc : KeysSorted c)
    (hp : ∀ x y, p x = false → bytesCompare x.1 y.1 = Ordering.lt → p y = false) :
    c.takeWhile p = c.filter p := by
  induction c with
  | nil => rfl
  | cons a rest ih =>
    have h2 := List.pairwise_cons.mp hc
    by_cases hpa : p a = true
    · simp [List.takeWhile, List.filter, hpa, ih h2.2]
    · have hpa2 : p a = false := by simpa using hpa
      have hnil : rest.filter p = [] := by
        apply List.filter_eq_nil_iff.mpr
        intro e he
        simp [hp a e hpa2 (h2.1 e he)]
      simp [List.takeWhile, List.filter, hpa2, hnil]

theorem dropWhile_eq_filter_of_sorted (q : Bytes × Bytes → Bool) (c : Content)
    (hc : KeysSorted c)
    (hq : ∀ x y, q x = false → bytesCompare x.1 y.1 = Ordering.lt → q y = false) :
    c.dropWhile q = c.filter (fun e => !q e) := by
  induction c with
  | nil => rfl
  | cons a rest ih =>
    have h2 := List.pairwise_cons.mp hc
    by_cases hqa : q a = true
    · simp [List.dropWhile, List.filter, hqa, ih h2.2]
    · have hqa2 : q a = false := by simpa using hqa
      have hall : rest.filter (fun e => !q e) = rest := by
        apply List.filter_eq_self.mpr
        intro e he
        simp [hq a e hqa2 (h2.1 e he)]
      simp [List.dropWhile, List.filter, hqa2, hall]

theorem beforeLimit_closed (limit : Option Bytes) (x y : Bytes)
    (hx : beforeLimit limit x = false) (hxy : bytesCompare x y = Ordering.lt) :
    beforeLimit limit y = false := by
  cases limit with
  | none => simp [beforeLimit] at hx
  | some l =>
    simp only [beforeLimit, decide_eq_false_iff_not] at hx ⊢
    intro hyl
    exact hx (bytesCompare_lt_trans _ _ _ hxy hyl)

/-! ## The scan loop -/

theorem scanLoop_noFault (pending : Content) (limit : Option Bytes) (cur : Option (Bytes × Bytes))
    (kvs : List KVItemT) (fuel : Nat) (hfuel : pending.length < fuel) :
    ∃ iter, scanLoop fuel
        { pending := pending, limit := limit, cur := cur, faultIn := none, err := none } kvs
        = some (kvs ++ (pending.takeWhile (fun e => beforeLimit limit e.1)).map toKV, iter)
      ∧ iter.Error = none := by
  induction pending generalizing cur kvs fuel with
  | nil =>
    cases fuel with
    | zero => simp at hfuel
    | succ m =>
      exact ⟨{ pending := [], limit := limit, cur := none, faultIn := none, err := none },
        by simp [scanLoop, Iterator.Next], rfl⟩
  | cons a rest ih =>
    cases fuel with
    | zero => simp at hfuel
    | succ m =>
      obtain ⟨k, v⟩ := a
      have hm : rest.length < m := by simpa using hfuel
      by_cases hb : beforeLimit limit k = true
      · obtain ⟨iter, h1, h2⟩ := ih (some (k, v)) (kvs ++ [{ K := k, V := v }]) m hm
        refine ⟨iter, ?_, h2⟩
        simp [scanLoop, Iterator.Next, hb, Iterator.Key, Iterator.Value, List.takeWhile, h1, toKV]
      · have hb2 : beforeLimit limit k = false := by simpa using hb
        exact ⟨{ pending := [], limit := limit, cur := none, faultIn := none, err := none },
          by simp [scanLoop, Iterator.Next, hb2, List.takeWhile], rfl⟩

theorem next_true_pending (iter : Iterator) (h : iter.Next.1 = true) :
    iter.Next.2.pending.length + 1 = iter.pending.length := by
  unfold Iterator.Next at h ⊢
  split at h
  · simp at h
  · split at h
    · simp at h
    · split at h
      · simp at h
      · rename_i hp
        split at h
        · rename_i hb
          simp [*]
        · simp at h

theorem scanLoop_total (fuel : Nat) (iter : Iterator) (kvs : List KVItemT)
    (hfuel : iter.pending.length < fuel) : ∃ r, scanLoop fuel iter kvs = some r := by
  induction fuel generalizing iter kvs with
  | zero => simp at hfuel
  | succ m ih =>
    unfold scanLoop
    rcases hn : iter.Next with ⟨b, iter2⟩
    cases b with
    | false => exact ⟨_, rfl⟩
    | true =>
      have hlen := next_true_pending iter (by rw [hn])
      rw [hn] at hlen
      simp only [] at hlen
      exact ih iter2 _ (by omega)

/-- The scan handlers always answer: the scan loop finishes within the `Next`
calls it is given, whether or not iteration meets a storage error. -/
theorem scan_handlers_total (s : Server) (keyPrefix start limit key : Bytes)
    (fault : Option (Nat × Bytes)) :
    (∃ h, leveldbRangeGet s keyPrefix start limit fault = some h)
      ∧ (∃ h, leveldbGetByPrefix s keyPrefix key fault = some h) := by
  have hreply : ∀ db r, ∃ h, scanReply s db r fault = some h := by
    intro db r
    unfold scanReply
    obtain ⟨⟨kvs, iter⟩, hr⟩ := scanLoop_total ((DB.NewIterator (s.store db) r fault).pending.length + 1)
      (DB.NewIterator (s.store db) r fault) [] (Nat.lt_succ_self _)
    simp only [hr]
    cases iter.Error with
    | some e => exact ⟨_, rfl⟩
    | none => exact ⟨_, rfl⟩
  constructor
  · unfold leveldbRangeGet
    split
    · exact ⟨_, rfl⟩
    · split
      · exact ⟨_, rfl⟩
      · exact hreply _ _
  · unfold leveldbGetByPrefix
    split
    · exact ⟨_, rfl⟩
    · split
      · exact ⟨_, rfl⟩
      · exact hreply _ _

theorem scanReply_noFault (s : Server) (db : Handle) (r : Range) :
    scanReply s db r none = some
      { resp := _respJSON []
          [Any.kvItems (((DB.NewIterator (s.store db) r none).pending.takeWhile
            (fun e => beforeLimit r.Limit e.1)).map toKV)],
        store := s.store, ops := [StoreOp.newIterator db r] } := by
  obtain ⟨iter, h1, h2⟩ := scanLoop_noFault (DB.NewIterator (s.store db) r none).pending
    r.Limit none [] ((DB.NewIterator (s.store db) r none).pending.length + 1) (Nat.lt_succ_self _)
  have hiter : DB.NewIterator (s.store db) r none =
      { pending := (DB.NewIterator (s.store db) r none).pending, limit := r.Limit, cur := none,
        faultIn := none, err := none } := rfl
  unfold scanReply
  simp only []
  rw [hiter] at *
  simp only [] at h1
  rw [h1]
  simp [h2]

theorem keysSorted_filter (p : Bytes × Bytes → Bool) (c : Content) (hc : KeysSorted c) :
    KeysSorted (c.filter p) :=
  List.Pairwise.sublist (List.filter_sublist c) hc

theorem seek_takeWhile_eq_rangePairs (c : Content) (start limit : Bytes) (hc : KeysSorted c) :
    ((DB.NewIterator c { Start := some start, Limit := some limit } none).pending.takeWhile
      (fun e => beforeLimit (some limit) e.1)) = rangePairs c start limit := by
  have hdrop := dropWhile_eq_filter_of_sorted
    (fun e => decide (bytesCompare e.1 start = Ordering.lt)) c hc (by
      intro x y hx hxy
      simp only [decide_eq_false_iff_not] at hx ⊢
      intro hy
      exact hx (bytesCompare_lt_trans _ _ _ hxy hy))
  have htake := takeWhile_eq_filter_of_sorted (fun e => beforeLimit (some limit) e.1)
    (c.filter (fun e => !decide (bytesCompare e.1 start = Ordering.lt)))
    (keysSorted_filter _ c hc)
    (fun x y hx hxy => beforeLimit_closed (some limit) x.1 y.1 hx hxy)
  simp only [DB.NewIterator]
  rw [hdrop, htake, List.filter_filter]
  unfold rangePairs
  apply List.filter_congr
  intro e _
  by_cases h1 : bytesCompare e.1 start = Ordering.lt
  · have h2 : bytesCompare start e.1 = Ordering.gt := (bytesCompare_gt_iff _ _).mpr h1
    simp [h1, h2]
  · have h2 : bytesCompare start e.1 ≠ Ordering.gt := fun h => h1 ((bytesCompare_gt_iff _ _).mp h)
    simp [h1, h2, beforeLimit]

theorem pairwise_map_toKV (c : Content) (hc : KeysSorted c) :
    (c.map toKV).Pairwise (fun a b => bytesCompare a.K b.K = Ordering.lt) := by
  unfold KeysSorted at hc
  exact List.pairwise_map.mpr hc

theorem jsonPairs_of_valid (c : Content) (h : ContentUTF8 c) : jsonPairs c = c.map toKV := by
  unfold jsonPairs
  apply List.map_congr_left
  intro e he
  exact jsonKVItem_of_valid (toKV e) (h e he).1 (h e he).2

theorem scanReply_noFault_resp (pairs : Content) :
    _respJSON [] [Any.kvItems (pairs.map toKV)] =
      [{ Code := StatusOK, Message := statusMsg StatusOK,
         Data := Any.kvItems (jsonPairs pairs) }] := by
  rw [respJSON_eq]
  simp [jsonAny, jsonPairs, List.map_map, Function.comp_def]

/-- C1, as amended: for every non-empty registered key prefix, every store
content (kept in ascending key order) and every non-empty start and limit, when
iteration raises no storage error `leveldbRangeGet` writes exactly one envelope,
with code OK and as data the stored pairs with `start <= key < limit`, in the
order of the store, each key and value as `json.Marshal` writes it (a byte
that is not part of a valid UTF-8 encoding becomes U+FFFD).  The stored keys
of the pairs listed are strictly ascending.  When the keys and values in the
interval are valid UTF-8, the data is exactly the stored pairs, and the keys
listed are strictly ascending.  The data is the empty sequence, the code still
OK, when no stored key lies in the interval. -/
theorem leveldbRangeGet_lists_interval (s : Server) (keyPrefix start limit : Bytes) (db : Handle)
    (hreg : getDBByKeyPrefix s.dbs keyPrefix = Except.ok db)
    (hkp : keyPrefix ≠ []) (hstart : start ≠ []) (hlimit : limit ≠ [])
    (hsorted : keysAscending (s.store db) = true) :
    leveldbRangeGet s keyPrefix start limit none = some
        { resp := [{ Code := StatusOK, Message := statusMsg StatusOK,
                     Data := Any.kvItems (jsonPairs (rangePairs (s.store db) start limit)) }],
          store := s.store,
          ops := [StoreOp.newIterator db { Start := some start, Limit := some limit }] }
      ∧ (∀ e, e ∈ rangePairs (s.store db) start limit ↔
          e ∈ s.store db ∧ bytesCompare start e.1 ≠ Ordering.gt
            ∧ bytesCompare e.1 limit = Ordering.lt)
      ∧ List.Sublist (rangePairs (s.store db) start limit) (s.store db)
      ∧ (rangePairs (s.store db) start limit).Pairwise
          (fun a b => bytesCompare a.1 b.1 = Ordering.lt)
      ∧ (ContentUTF8 (rangePairs (s.store db) start limit) →
          jsonPairs (rangePairs (s.store db) start limit)
              = (rangePairs (s.store db) start limit).map toKV
            ∧ (jsonPairs (rangePairs (s.store db) start limit)).Pairwise
                (fun a b => bytesCompare a.K b.K = Ordering.lt))
      ∧ ((∀ e ∈ s.store db, ¬ (bytesCompare start e.1 ≠ Ordering.gt
            ∧ bytesCompare e.1 limit = Ordering.lt)) →
          jsonPairs (rangePairs (s.store db) start limit) = []) := by
  have hc : KeysSorted (s.store db) := (keysAscending_iff _).mp hsorted
  refine ⟨?_, ?_, ?_, ?_, ?_, ?_⟩
  · unfold leveldbRangeGet
    rw [if_neg (by simp [hkp, hstart, hlimit]), hreg]
    simp only []
    rw [scanReply_noFault, seek_takeWhile_eq_rangePairs _ _ _ hc, scanReply_noFault_resp]
  · intro e
    simp [rangePairs, List.mem_filter]
  · exact List.filter_sublist _
  · exact keysSorted_filter _ _ hc
  · intro hv
    rw [jsonPairs_of_valid _ hv]
    exact ⟨rfl, pairwise_map_toKV _ (keysSorted_filter _ _ hc)⟩
  · intro h
    have : rangePairs (s.store db) start limit = [] := by
      unfold rangePairs
      apply List.filter_eq_nil_iff.mpr
      intro e he
      simpa using h e he
    simp [this, jsonPairs]

/-- The witness of C1: with keys "a", "b", "c" stored under the prefix "p",
start "b" and limit "d" yield exactly the pairs for "b" then "c". -/
theorem leveldbRangeGet_lists_interval_witness :
    getDBByKeyPrefix [([112], 0)] [112] = Except.ok 0
      ∧ keysAscending [([97], [49]), ([98], [50]), ([99], [51])] = true
      ∧ leveldbRangeGet
          { dbs := [([112], 0)], store := fun _ => [([97], [49]), ([98], [50]), ([99], [51])] }
          [112] [98] [100] none = some
        { resp := [{ Code := StatusOK, Message := statusMsg StatusOK,
                     Data := Any.kvItems [{ K := [98], V := [50] }, { K := [99], V := [51] }] }],
          store := fun _ => [([97], [49]), ([98], [50]), ([99], [51])],
          ops := [StoreOp.newIterator 0 { Start := some [98], Limit := some [100] }] } :=
  ⟨rfl, by decide,
    (leveldbRangeGet_lists_interval
      { dbs := [([112], 0)], store := fun _ => [([97], [49]), ([98], [50]), ([99], [51])] }
      [112] [98] [100] 0 rfl (by decide) (by decide) (by decide) (by decide)).1⟩

/-- C1 as stated fails, twice.  Under the registered key prefix "" the
range-get handler answers BadRequest, not OK, whatever the store holds.  And
with the keys `fe` and `ff` stored under the prefix "p", start `fe` and limit
`ff ff` yield two pairs whose keys are both written as U+FFFD (`ef bf bd`):
the data is not the stored pairs, and the keys listed are not strictly
ascending. -/
theorem leveldbRangeGet_empty_keyPrefix_registered :
    (getDBByKeyPrefix [([], 0)] [] = Except.ok 0
      ∧ keysAscending [([97], [49]), ([98], [50]), ([99], [51])] = true
      ∧ Option.map (fun h => h.resp.map (fun r => (r.Code, r.Message)))
          (leveldbRangeGet
            { dbs := [([], 0)], store := fun _ => [([97], [49]), ([98], [50]), ([99], [51])] }
            [] [98] [100] none)
        = some [(400, lit "缺少必要的请求参数")])
    ∧ (getDBByKeyPrefix [([112], 0)] [112] = Except.ok 0
      ∧ keysAscending [([254], [49]), ([255], [50])] = true
      ∧ rangePairs [([254], [49]), ([255], [50])] [254] [255, 255]
          = [([254], [49]), ([255], [50])]
      ∧ Option.map (fun h => h.resp)
          (leveldbRangeGet
            { dbs := [([112], 0)], store := fun _ => [([254], [49]), ([255], [50])] }
            [112] [254] [255, 255] none)
        = some [{ Code := 200, Message := statusMsg StatusOK,
                  Data := Any.kvItems [{ K := [239, 191, 189], V := [49] },
                                       { K := [239, 191, 189], V := [50] }] }]) := by
  refine ⟨⟨rfl, by decide, rfl⟩, ⟨rfl, by decide, by decide, rfl⟩⟩

/-! ## The range of a prefix -/

theorem increment_append_singleton (xs : Bytes) (c : Fin 256) :
    increment (xs ++ [c]) = if c < 0xff then some (xs ++ [c + 1]) else increment xs := by
  induction xs with
  | nil => simp [increment]
  | cons a as ih =>
    have hstep : increment (a :: (as ++ [c])) =
        match increment (as ++ [c]) with
        | some l => some (a :: l)
        | none => if a < 0xff then some [a + 1] else none := rfl
    rw [List.cons_append, hstep, ih]
    by_cases hc : c < 0xff
    · simp [hc]
    · simp [hc, increment]

theorem bytesPrefixLimit_eq_increment (pfx : Bytes) (i : Nat) (hi : i ≤ pfx.length) :
    bytesPrefixLimit pfx i = increment (pfx.take i) := by
  induction i with
  | zero => simp [bytesPrefixLimit, increment]
  | succ n ih =>
    have hn : n < pfx.length := hi
    have hget : pfx.get? n = some pfx[n] := by
      rw [List.get?_eq_getElem?]
      exact List.getElem?_eq_getElem hn
    simp only [bytesPrefixLimit, hget]
    rw [List.take_succ, List.getElem?_eq_getElem hn, Option.toList_some,
      increment_append_singleton, ih (Nat.le_of_lt hn)]

theorem bytesPrefix_limit (pfx : Bytes) : (BytesPrefix pfx).Limit = increment pfx := by
  simp [BytesPrefix, bytesPrefixLimit_eq_increment pfx pfx.length (le_refl _)]

theorem increment_all_ff (p : Bytes) (h : ∀ b ∈ p, b = 0xff) : increment p = none := by
  induction p with
  | nil => rfl
  | cons a as ih =>
    have ha : a = 0xff := h a (List.mem_cons_self _ _)
    have has : increment as = none := ih (fun b hb => h b (List.mem_cons_of_mem _ hb))
    simp [increment, has, ha]

theorem increment_cut (pre suf : Bytes) (c : Fin 256) (hc : c < 0xff)
    (hsuf : ∀ b ∈ suf, b = 0xff) : increment (pre ++ c :: suf) = some (pre ++ [c + 1]) := by
  induction pre with
  | nil => simp [increment, increment_all_ff suf hsuf, hc]
  | cons a as ih => simp [increment, ih]

theorem hasPrefix_iff (k p : Bytes) : hasPrefix k p = true ↔ ∃ rest, k = p ++ rest := by
  induction p generalizing k with
  | nil => cases k <;> simp [hasPrefix]
  | cons a as ih =>
    cases k with
    | nil => simp [hasPrefix]
    | cons b bs =>
      simp only [hasPrefix, Bool.and_eq_true, decide_eq_true_eq, ih, List.cons_append,
        List.cons.injEq]
      constructor
      · rintro ⟨hab, rest, hrest⟩
        exact ⟨rest, hab, hrest⟩
      · rintro ⟨rest, hab, hrest⟩
        exact ⟨hab, rest, hrest⟩

theorem bytesCompare_nil_right (k : Bytes) : bytesCompare k [] ≠ Ordering.lt := by
  cases k <;> simp [bytesCompare]

/-- A key lies in the range of `BytesPrefix p` exactly when it begins with `p`. -/
theorem inPrefixRange_iff (p k : Bytes) :
    (bytesCompare k p ≠ Ordering.lt ∧ beforeLimit (increment p) k = true)
      ↔ hasPrefix k p = true := by
  induction p generalizing k with
  | nil => cases k <;> simp [bytesCompare, increment, beforeLimit, hasPrefix]
  | cons a as ih =>
    cases k with
    | nil => simp [bytesCompare, hasPrefix]
    | cons b bs =>
      have hih := ih bs
      rcases lt_trichotomy b a with hba | hba | hba
      · have hne : b ≠ a := ne_of_lt hba
        simp [bytesCompare, hasPrefix, hba, hne]
      · subst hba
        simp only [bytesCompare, lt_irrefl, if_false, hasPrefix, decide_True, Bool.true_and,
          increment]
        rw [← hih]
        cases hinc : increment as with
        | some l => simp [beforeLimit, bytesCompare]
        | none =>
          by_cases hb : b < 0xff
          · have hlt : b < b + 1 := by omega
            simp [beforeLimit, bytesCompare, hb, hlt]
          · simp [beforeLimit, hb]
      · have hne : b ≠ a := ne_of_gt hba
        have hnlt : ¬ b < a := not_lt_of_gt hba
        simp only [bytesCompare, hnlt, hba, if_false, if_true, hasPrefix, hne, decide_False,
          Bool.false_and, increment]
        constructor
        · rintro ⟨_, h⟩
          exfalso
          cases hinc : increment as with
          | some l => simp [hinc, beforeLimit, bytesCompare, hnlt, hba] at h
          | none =>
            by_cases ha : a < 0xff
            · have h1 : ¬ b < a + 1 := by omega
              simp only [hinc, ha, if_true, beforeLimit, bytesCompare, h1, if_false,
                decide_eq_true_eq] at h
              by_cases h2 : a + 1 < b
              · simp [h2] at h
              · simp only [h2, if_false] at h
                exact bytesCompare_nil_right bs h
            · omega
        · intro h
          simp at h

theorem seek_takeWhile_eq_prefixPairs (c : Content) (key : Bytes) (hc : KeysSorted c) :
    ((DB.NewIterator c (BytesPrefix key) none).pending.takeWhile
      (fun e => beforeLimit (BytesPrefix key).Limit e.1)) = prefixPairs c key := by
  have hdrop := dropWhile_eq_filter_of_sorted
    (fun e => decide (bytesCompare e.1 key = Ordering.lt)) c hc (by
      intro x y hx hxy
      simp only [decide_eq_false_iff_not] at hx ⊢
      intro hy
      exact hx (bytesCompare_lt_trans _ _ _ hxy hy))
  have htake := takeWhile_eq_filter_of_sorted (fun e => beforeLimit (increment key) e.1)
    (c.filter (fun e => !decide (bytesCompare e.1 key = Ordering.lt)))
    (keysSorted_filter _ c hc)
    (fun x y hx hxy => beforeLimit_closed (increment key) x.1 y.1 hx hxy)
  rw [bytesPrefix_limit]
  simp only [DB.NewIterator, BytesPrefix]
  rw [hdrop, htake, List.filter_filter]
  unfold prefixPairs
  apply List.filter_congr
  intro e _
  have h := inPrefixRange_iff key e.1
  by_cases h1 : bytesCompare e.1 key = Ordering.lt
  · have h2 : hasPrefix e.1 key = false := by
      cases hh : hasPrefix e.1 key with
      | false => rfl
      | true => exact absurd h1 (h.mpr hh).1
    simp [h1, h2]
  · by_cases h3 : beforeLimit (increment key) e.1 = true
    · have h2 : hasPrefix e.1 key = true := h.mp ⟨h1, h3⟩
      simp [h1, h2, h3]
    · have h2 : hasPrefix e.1 key = false := by
        cases hh : hasPrefix e.1 key with
        | false => rfl
        | true => exact absurd (h.mpr hh).2 h3
      simp [h1, h2, h3]

theorem prefixPairs_eq_rangePairs (c : Content) (key l : Bytes) (hl : increment key = some l) :
    prefixPairs c key = rangePairs c key l := by
  unfold prefixPairs rangePairs
  apply List.filter_congr
  intro e _
  have h := inPrefixRange_iff key e.1
  rw [hl] at h
  have hgt : bytesCompare key e.1 ≠ Ordering.gt ↔ bytesCompare e.1 key ≠ Ordering.lt :=
    not_congr (bytesCompare_gt_iff _ _)
  cases hh : hasPrefix e.1 key with
  | true =>
    have h2 := h.mpr hh
    simp only [beforeLimit, decide_eq_true_eq] at h2
    simp [hgt.mpr h2.1, h2.2]
  | false =>
    have h2 : ¬ (bytesCompare key e.1 ≠ Ordering.gt ∧ bytesCompare e.1 l = Ordering.lt) := by
      rintro ⟨h3, h4⟩
      have := h.mp ⟨hgt.mp h3, by simp [beforeLimit, h4]⟩
      simp [hh] at this
    simp [h2]

theorem prefixPairs_eq_tail (c : Content) (key : Bytes) (hl : increment key = none) :
    prefixPairs c key = c.filter (fun e => bytesCompare key e.1 ≠ Ordering.gt) := by
  unfold prefixPairs
  apply List.filter_congr
  intro e _
  have h := inPrefixRange_iff key e.1
  rw [hl] at h
  have hgt : bytesCompare key e.1 ≠ Ordering.gt ↔ bytesCompare e.1 key ≠ Ordering.lt :=
    not_congr (bytesCompare_gt_iff _ _)
  cases hh : hasPrefix e.1 key with
  | true => simp [hgt.mpr (h.mpr hh).1]
  | false =>
    have h2 : ¬ bytesCompare key e.1 ≠ Ordering.gt := by
      intro h3
      have := h.mp ⟨hgt.mp h3, by simp [beforeLimit]⟩
      simp [hh] at this
    simp only [ne_eq, not_not] at h2
    simp [h2]

/-- C2, as amended: for every non-empty registered key prefix, every store
content (kept in ascending key order) and every non-empty scan key `key`, when
iteration raises no storage error `leveldbGetByPrefix` writes exactly one
envelope, with code OK and as data the stored pairs whose key begins with
`key`, in the order of the store and no other pair, each key and value as
`json.Marshal` writes it (a byte that is not part of a valid UTF-8 encoding
becomes U+FFFD).  The stored keys of the pairs listed are strictly ascending.
When the keys and values listed are valid UTF-8, the data is exactly the stored
pairs, and the keys listed are strictly ascending.  The scan is the range scan
over `[key, increment(key))`: the limit of the range is `key` cut after its
last byte below `0xff` with that byte incremented, and it is absent, the scan
running to the end of the keyspace, when every byte of `key` is `0xff`. -/
theorem leveldbGetByPrefix_lists_matching (s : Server) (keyPrefix key : Bytes) (db : Handle)
    (hreg : getDBByKeyPrefix s.dbs keyPrefix = Except.ok db)
    (hkp : keyPrefix ≠ []) (hkey : key ≠ [])
    (hsorted : keysAscending (s.store db) = true) :
    leveldbGetByPrefix s keyPrefix key none = some
        { resp := [{ Code := StatusOK, Message := statusMsg StatusOK,
                     Data := Any.kvItems (jsonPairs (prefixPairs (s.store db) key)) }],
          store := s.store,
          ops := [StoreOp.newIterator db (BytesPrefix key)] }
      ∧ (∀ e, e ∈ prefixPairs (s.store db) key ↔ e ∈ s.store db ∧ ∃ rest, e.1 = key ++ rest)
      ∧ List.Sublist (prefixPairs (s.store db) key) (s.store db)
      ∧ (prefixPairs (s.store db) key).Pairwise
          (fun a b => bytesCompare a.1 b.1 = Ordering.lt)
      ∧ (ContentUTF8 (prefixPairs (s.store db) key) →
          jsonPairs (prefixPairs (s.store db) key) = (prefixPairs (s.store db) key).map toKV
            ∧ (jsonPairs (prefixPairs (s.store db) key)).Pairwise
                (fun a b => bytesCompare a.K b.K = Ordering.lt))
      ∧ (BytesPrefix key).Start = some key
      ∧ (∀ pre suf c, key = pre ++ c :: suf → c < 0xff → (∀ b ∈ suf, b = 0xff) →
          (BytesPrefix key).Limit = some (pre ++ [c + 1]))
      ∧ ((∀ b ∈ key, b = 0xff) → (BytesPrefix key).Limit = none)
      ∧ (∀ l, (BytesPrefix key).Limit = some l →
          prefixPairs (s.store db) key = rangePairs (s.store db) key l)
      ∧ ((BytesPrefix key).Limit = none →
          prefixPairs (s.store db) key
            = (s.store db).filter (fun e => bytesCompare key e.1 ≠ Ordering.gt)) := by
  have hc : KeysSorted (s.store db) := (keysAscending_iff _).mp hsorted
  refine ⟨?_, ?_, ?_, ?_, ?_, rfl, ?_, ?_, ?_, ?_⟩
  · unfold leveldbGetByPrefix
    rw [if_neg (by simp [hkp, hkey]), hreg]
    simp only []
    rw [scanReply_noFault, seek_takeWhile_eq_prefixPairs _ _ hc, scanReply_noFault_resp]
  · intro e
    simp [prefixPairs, List.mem_filter, hasPrefix_iff]
  · exact List.filter_sublist _
  · exact keysSorted_filter _ _ hc
  · intro hv
    rw [jsonPairs_of_valid _ hv]
    exact ⟨rfl, pairwise_map_toKV _ (keysSorted_filter _ _ hc)⟩
  · intro pre suf c hk hlt hsuf
    rw [bytesPrefix_limit, hk]
    exact increment_cut pre suf c hlt hsuf
  · intro h
    rw [bytesPrefix_limit]
    exact increment_all_ff key h
  · intro l hl
    rw [bytesPrefix_limit] at hl
    exact prefixPairs_eq_rangePairs _ _ _ hl
  · intro hl
    rw [bytesPrefix_limit] at hl
    exact prefixPairs_eq_tail _ _ hl

/-- The witness of C2: with keys "group:1", "user:1", "user:2" stored under the
prefix "p", the scan key "user:" yields exactly the two "user:" pairs in order. -/
theorem leveldbGetByPrefix_lists_matching_witness :
    getDBByKeyPrefix [(lit "p", 0)] (lit "p") = Except.ok 0
      ∧ keysAscending
          [(lit "group:1", lit "x"), (lit "user:1", lit "y"), (lit "user:2", lit "z")] = true
      ∧ leveldbGetByPrefix
          { dbs := [(lit "p", 0)],
            store := fun _ =>
              [(lit "group:1", lit "x"), (lit "user:1", lit "y"), (lit "user:2", lit "z")] }
          (lit "p") (lit "user:") none = some
        { resp := [{ Code := StatusOK, Message := statusMsg StatusOK,
                     Data := Any.kvItems [{ K := lit "user:1", V := lit "y" },
                                          { K := lit "user:2", V := lit "z" }] }],
          store := fun _ =>
              [(lit "group:1", lit "x"), (lit "user:1", lit "y"), (lit "user:2", lit "z")],
          ops := [StoreOp.newIterator 0 (BytesPrefix (lit "user:"))] } :=
  ⟨rfl, by decide,
    (leveldbGetByPrefix_lists_matching
      { dbs := [(lit "p", 0)],
        store := fun _ =>
          [(lit "group:1", lit "x"), (lit "user:1", lit "y"), (lit "user:2", lit "z")] }
      (lit "p") (lit "user:") 0 rfl (by decide) (by decide) (by decide)).1⟩

/-- C2 as stated fails, twice.  Under the registered key prefix "" the
prefix-get handler answers BadRequest, not OK, whatever the store holds.  And
with the keys `ff ff` and `ff ff 61` stored under the prefix "p", the scan key
`ff ff`, every byte of which is `0xff`, yields the two pairs with every `ff` of
their keys written as U+FFFD (`ef bf bd`): the data is not the stored pairs. -/
theorem leveldbGetByPrefix_empty_keyPrefix_registered :
    (getDBByKeyPrefix [([], 0)] [] = Except.ok 0
      ∧ keysAscending
          [(lit "group:1", lit "x"), (lit "user:1", lit "y"), (lit "user:2", lit "z")] = true
      ∧ Option.map (fun h => h.resp.map (fun r => (r.Code, r.Message)))
          (leveldbGetByPrefix
            { dbs := [([], 0)],
              store := fun _ =>
                [(lit "group:1", lit "x"), (lit "user:1", lit "y"), (lit "user:2", lit "z")] }
            [] (lit "user:") none)
        = some [(400, lit "缺少必要的请求参数")])
    ∧ (getDBByKeyPrefix [([112], 0)] [112] = Except.ok 0
      ∧ keysAscending [([255, 255], [49]), ([255, 255, 97], [50])] = true
      ∧ prefixPairs [([255, 255], [49]), ([255, 255, 97], [50])] [255, 255]
          = [([255, 255], [49]), ([255, 255, 97], [50])]
      ∧ Option.map (fun h => h.resp)
          (leveldbGetByPrefix
            { dbs := [([112], 0)],
              store := fun _ => [([255, 255], [49]), ([255, 255, 97], [50])] }
            [112] [255, 255] none)
        = some [{ Code := 200, Message := statusMsg StatusOK,
                  Data := Any.kvItems
                    [{ K := [239, 191, 189, 239, 191, 189], V := [49] },
                     { K := [239, 191, 189, 239, 191, 189, 97], V := [50] }] }]) := by
  refine ⟨⟨rfl, by decide, rfl⟩, ⟨rfl, by decide, by decide, rfl⟩⟩

/-! ## Batches -/

theorem contentGet_contentPut (c : Content) (k v key : Bytes) :
    contentGet (contentPut c k v) key = if k = key then some v else contentGet c key := by
  induction c with
  | nil => simp [contentPut, contentGet]
  | cons a rest ih =>
    obtain ⟨k0, v0⟩ := a
    simp only [contentPut]
    cases hcmp : bytesCompare k k0 with
    | lt => simp [contentGet]
    | eq =>
      have hk : k = k0 := (bytesCompare_eq_iff _ _).mp hcmp
      subst hk
      by_cases hkey : k = key
      · simp [contentGet, hkey]
      · simp [contentGet, hkey]
    | gt =>
      have hk : k0 ≠ k := by
        intro h
        subst h
        rw [bytesCompare_self] at hcmp
        cases hcmp
      by_cases hkey : k = key
      · subst hkey
        simp [contentGet, hk, ih]
      · simp only [contentGet, ih, hkey, if_false]

theorem contentGet_contentDelete (c : Content) (k key : Bytes) :
    contentGet (contentDelete c k) key = if k = key then none else contentGet c key := by
  induction c with
  | nil => simp [contentDelete, contentGet]
  | cons a rest ih =>
    obtain ⟨k0, v0⟩ := a
    simp only [contentDelete]
    by_cases h0 : k0 = k
    · subst h0
      by_cases hkey : k0 = key
      · rw [if_pos rfl, ih, if_pos hkey, if_pos hkey]
      · simp [ih, hkey, contentGet]
    · by_cases hkey : k = key
      · subst hkey
        simp [h0, contentGet, ih]
      · simp [h0, contentGet, ih, hkey]

theorem mem_contentPut (c : Content) (k v : Bytes) (e : Bytes × Bytes)
    (he : e ∈ contentPut c k v) : e = (k, v) ∨ e ∈ c := by
  induction c with
  | nil => simpa [contentPut] using he
  | cons a rest ih =>
    obtain ⟨k0, v0⟩ := a
    simp only [contentPut] at he
    cases hcmp : bytesCompare k k0 with
    | lt =>
      rw [hcmp] at he
      simpa using he
    | eq =>
      rw [hcmp] at he
      rcases List.mem_cons.mp he with h | h
      · exact Or.inl h
      · exact Or.inr (List.mem_cons_of_mem _ h)
    | gt =>
      rw [hcmp] at he
      rcases List.mem_cons.mp he with h | h
      · exact Or.inr (h ▸ List.mem_cons_self _ _)
      · rcases ih h with h2 | h2
        · exact Or.inl h2
        · exact Or.inr (List.mem_cons_of_mem _ h2)

theorem keysSorted_contentPut (c : Content) (k v : Bytes) (hc : KeysSorted c) :
    KeysSorted (contentPut c k v) := by
  unfold KeysSorted at *
  induction c with
  | nil => simp [contentPut]
  | cons a rest ih =>
    obtain ⟨k0, v0⟩ := a
    have h2 := List.pairwise_cons.mp hc
    simp only [contentPut]
    cases hcmp : bytesCompare k k0 with
    | lt =>
      refine List.pairwise_cons.mpr ⟨?_, hc⟩
      intro e he
      rcases List.mem_cons.mp he with rfl | he2
      · exact hcmp
      · exact bytesCompare_lt_trans _ _ _ hcmp (h2.1 e he2)
    | eq =>
      have hk : k = k0 := (bytesCompare_eq_iff _ _).mp hcmp
      subst hk
      exact List.pairwise_cons.mpr ⟨fun e he => h2.1 e he, h2.2⟩
    | gt =>
      have hlt : bytesCompare k0 k = Ordering.lt := (bytesCompare_gt_iff _ _).mp hcmp
      refine List.pairwise_cons.mpr ⟨?_, ih h2.2⟩
      intro e he
      rcases mem_contentPut rest k v e he with rfl | he2
      · exact hlt
      · exact h2.1 e he2

theorem contentDelete_sublist (c : Content) (k : Bytes) : List.Sublist (contentDelete c k) c := by
  induction c with
  | nil => exact List.Sublist.slnil
  | cons a rest ih =>
    obtain ⟨k0, v0⟩ := a
    simp only [contentDelete]
    by_cases h0 : k0 = k
    · simp only [h0, if_true]
      exact List.Sublist.cons _ ih
    · simp only [h0, if_false]
      exact List.Sublist.cons₂ _ ih

theorem keysSorted_applyBatch (c : Content) (bat : Batch) (hc : KeysSorted c) :
    KeysSorted (applyBatch c bat) := by
  unfold applyBatch
  induction bat generalizing c with
  | nil => exact hc
  | cons r rest ih =>
    simp only [List.foldl_cons]
    apply ih
    cases r with
    | put k v => exact keysSorted_contentPut c k v hc
    | delete k => exact List.Pairwise.sublist (contentDelete_sublist c k) hc

/-- The engine keeps the keys of a store in ascending order: a write leaves a
content with ascending keys. -/
theorem keysAscending_write (c : Content) (bat : Batch) (fault : Option Bytes)
    (hc : keysAscending c = true) : keysAscending (DB.Write c bat fault).1 = true := by
  rw [keysAscending_iff] at hc ⊢
  unfold DB.Write
  by_cases hlen : bat.length = 0
  · simpa [hlen] using hc
  · cases fault with
    | some msg => simpa [hlen] using hc
    | none => simpa [hlen] using keysSorted_applyBatch c bat hc

theorem putBatch_eq (items : List KVItemT) (init : Batch) :
    items.foldl (fun bat kv => Batch.Put bat kv.K kv.V) init
      = init ++ items.map (fun kv => BatchRecord.put kv.K kv.V) := by
  induction items generalizing init with
  | nil => simp
  | cons a rest ih =>
    simp only [List.foldl_cons, List.map_cons]
    rw [ih]
    simp [Batch.Put]

theorem delBatch_eq (keys : List Bytes) (init : Batch) :
    keys.foldl (fun bat k => Batch.Delete bat k) init
      = init ++ keys.map (fun k => BatchRecord.delete k) := by
  induction keys generalizing init with
  | nil => simp
  | cons a rest ih =>
    simp only [List.foldl_cons, List.map_cons]
    rw [ih]
    simp [Batch.Delete]

theorem contentGet_puts_other (c : Content) (items : List KVItemT) (key : Bytes)
    (h : ∀ kv ∈ items, kv.K ≠ key) :
    contentGet (applyBatch c (items.map (fun kv => BatchRecord.put kv.K kv.V))) key
      = contentGet c key := by
  unfold applyBatch
  induction items generalizing c with
  | nil => rfl
  | cons a rest ih =>
    simp only [List.map_cons, List.foldl_cons, applyRecord]
    rw [ih _ (fun kv hkv => h kv (List.mem_cons_of_mem _ hkv)), contentGet_contentPut]
    simp [h a (List.mem_cons_self _ _)]

theorem contentGet_puts_last (c : Content) (before after : List KVItemT) (k v : Bytes)
    (h : ∀ kv ∈ after, kv.K ≠ k) :
    contentGet (applyBatch c
      ((before ++ { K := k, V := v } :: after).map (fun kv => BatchRecord.put kv.K kv.V))) k
      = some v := by
  have hother := contentGet_puts_other
    (contentPut (applyBatch c (before.map (fun kv => BatchRecord.put kv.K kv.V))) k v) after k h
  unfold applyBatch at *
  simp only [List.map_append, List.map_cons, List.foldl_append, List.foldl_cons, applyRecord]
  rw [hother, contentGet_contentPut]
  simp

theorem contentGet_deletes (c : Content) (keys : List Bytes) (key : Bytes) :
    contentGet (applyBatch c (keys.map (fun k => BatchRecord.delete k))) key
      = if key ∈ keys then none else contentGet c key := by
  unfold applyBatch
  induction keys generalizing c with
  | nil => simp
  | cons a rest ih =>
    simp only [List.map_cons, List.foldl_cons, applyRecord]
    rw [ih, contentGet_contentDelete]
    by_cases h1 : key ∈ rest
    · simp [h1]
    · by_cases h2 : a = key
      · simp [h2]
      · have h3 : ¬ key = a := fun h => h2 h.symm
        simp [h1, h2, h3]

/-! ## The write handlers -/

theorem write_cases (c : Content) (bat : Batch) (fault : Option Bytes) :
    (bat ≠ [] ∧ ∃ msg, fault = some msg ∧ DB.Write c bat fault = (c, some (DBError.failure msg)))
      ∨ DB.Write c bat fault = (applyBatch c bat, none) := by
  unfold DB.Write
  cases bat with
  | nil => right; simp [applyBatch]
  | cons r rest =>
    cases fault with
    | some msg => left; exact ⟨by simp, msg, rfl, by simp⟩
    | none => right; simp

theorem leveldbPut_registered (s : Server) (reqBody : PutReqBodyT) (fault : Option Bytes)
    (db : Handle) (hreg : getDBByKeyPrefix s.dbs reqBody.KeyPrefix = Except.ok db) :
    leveldbPut s (Body.parsed reqBody) fault =
      match DB.Write (s.store db) (reqBody.KV.map (fun kv => BatchRecord.put kv.K kv.V)) fault with
      | (c, some err) =>
        { resp := _respJSONError [] StatusInternalServerError [err.Error],
          store := setStore s.store db c,
          ops := [StoreOp.write db (reqBody.KV.map (fun kv => BatchRecord.put kv.K kv.V))] }
      | (c, none) =>
        { resp := _respJSON [] [], store := setStore s.store db c,
          ops := [StoreOp.write db (reqBody.KV.map (fun kv => BatchRecord.put kv.K kv.V))] } := by
  unfold leveldbPut
  simp only [hreg, putBatch_eq, List.nil_append]

theorem leveldbDel_registered (s : Server) (reqBody : DelReqBodyT) (fault : Option Bytes)
    (db : Handle) (hreg : getDBByKeyPrefix s.dbs reqBody.KeyPrefix = Except.ok db) :
    leveldbDel s (Body.parsed reqBody) fault =
      match DB.Write (s.store db) (reqBody.Keys.map (fun k => BatchRecord.delete k)) fault with
      | (c, some err) =>
        { resp := _respJSONError [] StatusInternalServerError [err.Error],
          store := setStore s.store db c,
          ops := [StoreOp.write db (reqBody.Keys.map (fun k => BatchRecord.delete k))] }
      | (c, none) =>
        { resp := _respJSON [] [], store := setStore s.store db c,
          ops := [StoreOp.write db (reqBody.Keys.map (fun k => BatchRecord.delete k))] } := by
  unfold leveldbDel
  simp only [hreg, delBatch_eq, List.nil_append]

theorem setStore_self (store : Handle → Content) (db : Handle) :
    setStore store db (store db) = store := by
  funext h
  unfold setStore
  by_cases hh : h = db
  · simp [hh]
  · simp [hh]

/-- C3, as amended: for every non-empty registered key prefix, every put request
under it that the handler answers with OK (its batch write succeeded), and every
non-empty key `k` whose last item in the request carries the value `v`, a get
of `k` under the same prefix issued next, whose lookup raises no storage error,
writes exactly one envelope, with code OK and as data `v` as `json.Marshal`
writes it; the data is `v` itself whenever `v` is valid UTF-8, as every value
decoded from a JSON request body is. -/
theorem put_then_get (s : Server) (reqBody : PutReqBodyT) (fault : Option Bytes) (db : Handle)
    (before after : List KVItemT) (k v : Bytes)
    (hreg : getDBByKeyPrefix s.dbs reqBody.KeyPrefix = Except.ok db)
    (hkp : reqBody.KeyPrefix ≠ [])
    (hput : (leveldbPut s (Body.parsed reqBody) fault).resp.map (fun r => r.Code) = [StatusOK])
    (hk : k ≠ [])
    (hitems : reqBody.KV = before ++ { K := k, V := v } :: after)
    (hlast : ∀ kv ∈ after, kv.K ≠ k) :
    leveldbGet { dbs := s.dbs, store := (leveldbPut s (Body.parsed reqBody) fault).store }
        reqBody.KeyPrefix k none =
      { resp := [{ Code := StatusOK, Message := statusMsg StatusOK,
                   Data := Any.string (jsonString v) }],
        store := (leveldbPut s (Body.parsed reqBody) fault).store,
        ops := [StoreOp.get db k] }
    ∧ (validUTF8 v = true →
      leveldbGet { dbs := s.dbs, store := (leveldbPut s (Body.parsed reqBody) fault).store }
          reqBody.KeyPrefix k none =
        { resp := [{ Code := StatusOK, Message := statusMsg StatusOK, Data := Any.string v }],
          store := (leveldbPut s (Body.parsed reqBody) fault).store,
          ops := [StoreOp.get db k] }) := by
  have hmain : leveldbGet
      { dbs := s.dbs, store := (leveldbPut s (Body.parsed reqBody) fault).store }
        reqBody.KeyPrefix k none =
      { resp := [{ Code := StatusOK, Message := statusMsg StatusOK,
                   Data := Any.string (jsonString v) }],
        store := (leveldbPut s (Body.parsed reqBody) fault).store,
        ops := [StoreOp.get db k] } := by
    rw [leveldbPut_registered s reqBody fault db hreg] at hput ⊢
    rcases write_cases (s.store db) (reqBody.KV.map (fun kv => BatchRecord.put kv.K kv.V)) fault
      with ⟨_, msg, _, hw⟩ | hw
    · rw [hw] at hput
      simp [_respJSONError, jsonMarshal, StatusInternalServerError, StatusOK] at hput
    · rw [hw]
      have hget : contentGet (applyBatch (s.store db)
          (reqBody.KV.map (fun kv => BatchRecord.put kv.K kv.V))) k = some v := by
        rw [hitems]
        exact contentGet_puts_last _ before after k v hlast
      unfold leveldbGet
      simp only []
      rw [if_neg (by simp [hkp, hk]), hreg]
      simp [DB.Get, setStore, hget, respJSON_eq, jsonAny]
  refine ⟨hmain, ?_⟩
  intro hv
  rw [hmain, jsonString_of_valid v hv]

/-- The witness of C3: putting the items [{k:"a", v:"1"}] under "p" and then
getting "a" under "p" returns "1" with OK. -/
theorem put_then_get_witness :
    getDBByKeyPrefix [(lit "p", 0)] (lit "p") = Except.ok 0
      ∧ (leveldbPut { dbs := [(lit "p", 0)], store := fun _ => [] }
          (Body.parsed { KeyPrefix := lit "p", KV := [{ K := lit "a", V := lit "1" }] })
          none).resp.map (fun r => r.Code) = [StatusOK]
      ∧ leveldbGet
          { dbs := [(lit "p", 0)],
            store := (leveldbPut { dbs := [(lit "p", 0)], store := fun _ => [] }
              (Body.parsed { KeyPrefix := lit "p", KV := [{ K := lit "a", V := lit "1" }] })
              none).store }
          (lit "p") (lit "a") none =
        { resp := [{ Code := StatusOK, Message := statusMsg StatusOK,
                     Data := Any.string (lit "1") }],
          store := (leveldbPut { dbs := [(lit "p", 0)], store := fun _ => [] }
              (Body.parsed { KeyPrefix := lit "p", KV := [{ K := lit "a", V := lit "1" }] })
              none).store,
          ops := [StoreOp.get 0 (lit "a")] } :=
  ⟨rfl, by decide,
    put_then_get { dbs := [(lit "p", 0)], store := fun _ => [] }
      { KeyPrefix := lit "p", KV := [{ K := lit "a", V := lit "1" }] } none 0
      [] [] (lit "a") (lit "1") rfl (by decide) (by decide) (by decide) rfl
      (fun _ h => absurd h (List.not_mem_nil _)) |>.2 (by decide)⟩

/-- C3 as stated fails, twice.  After a put under "p" that succeeded, a get of
the key whose lookup meets a storage error answers InternalServerError, not OK.
And under the registered key prefix "" a put succeeds, and the get that follows
answers BadRequest. -/
theorem put_then_get_not_ok :
    (getDBByKeyPrefix [(lit "p", 0)] (lit "p") = Except.ok 0
      ∧ (leveldbPut { dbs := [(lit "p", 0)], store := fun _ => [] }
          (Body.parsed { KeyPrefix := lit "p", KV := [{ K := lit "a", V := lit "1" }] })
          none).resp.map (fun r => r.Code) = [200]
      ∧ (leveldbGet
          { dbs := [(lit "p", 0)],
            store := (leveldbPut { dbs := [(lit "p", 0)], store := fun _ => [] }
              (Body.parsed { KeyPrefix := lit "p", KV := [{ K := lit "a", V := lit "1" }] })
              none).store }
          (lit "p") (lit "a") (some (lit "read failed"))).resp.map (fun r => r.Code) = [500])
    ∧ (getDBByKeyPrefix [([], 0)] [] = Except.ok 0
      ∧ (leveldbPut { dbs := [([], 0)], store := fun _ => [] }
          (Body.parsed { KeyPrefix := [], KV := [{ K := lit "a", V := lit "1" }] })
          none).resp.map (fun r => r.Code) = [200]
      ∧ (leveldbGet
          { dbs := [([], 0)],
            store := (leveldbPut { dbs := [([], 0)], store := fun _ => [] }
              (Body.parsed { KeyPrefix := [], KV := [{ K := lit "a", V := lit "1" }] })
              none).store }
          [] (lit "a") none).resp.map (fun r => r.Code) = [400]) := by
  refine ⟨⟨rfl, by decide, by decide⟩, ⟨rfl, by decide, by decide⟩⟩

/-! ## The registry -/

theorem mapIndex_some_mem {β : Type} (m : List (Bytes × β)) (key : Bytes) (v : β)
    (h : mapIndex m key = some v) : (key, v) ∈ m := by
  induction m with
  | nil => simp [mapIndex] at h
  | cons a rest ih =>
    obtain ⟨k0, v0⟩ := a
    simp only [mapIndex] at h
    by_cases hk : k0 = key
    · simp only [hk, if_true, Option.some.injEq] at h
      simp [hk, h]
    · simp only [hk, if_false] at h
      exact List.mem_cons_of_mem _ (ih h)

theorem mapIndex_none_of_not_key {β : Type} (m : List (Bytes × β)) (key : Bytes)
    (h : ∀ v, (key, v) ∉ m) : mapIndex m key = none := by
  induction m with
  | nil => rfl
  | cons a rest ih =>
    obtain ⟨k0, v0⟩ := a
    have hk : k0 ≠ key := by
      intro hk
      exact h v0 (by simp [hk])
    simp only [mapIndex, hk, if_false]
    exact ih (fun v hv => h v (List.mem_cons_of_mem _ hv))

theorem mapIndex_of_nodup {β : Type} (m : List (Bytes × β)) (key : Bytes) (v : β)
    (hnd : (m.map (fun e => e.1)).Nodup) (h : (key, v) ∈ m) : mapIndex m key = some v := by
  induction m with
  | nil => simp at h
  | cons a rest ih =>
    obtain ⟨k0, v0⟩ := a
    simp only [List.map_cons, List.nodup_cons] at hnd
    rcases List.mem_cons.mp h with heq | hmem
    · simp only [Prod.mk.injEq] at heq
      simp [mapIndex, heq.1, heq.2]
    · have hk : k0 ≠ key := by
        intro hk
        apply hnd.1
        rw [hk]
        exact List.mem_map.mpr ⟨(key, v), hmem, rfl⟩
      simp only [mapIndex, hk, if_false]
      exact ih hnd.2 hmem

/-- C4: registry lookup is exact.  `getDBByKeyPrefix` returns a handle only when
the map holds it under exactly the string asked for; in a map (no key twice)
it returns the handle stored under that string, with no error; when the string
is a key it returns a handle; when the string is no key of the map it returns
an error whose message contains the string; and, the lookup being a function
of the map and the string, two calls with the same string on the same registry
return the same result.  `getAPIByKeyPrefix` obeys the same rule on the
prefix-to-API-base map. -/
theorem registry_lookup_exact (dbs : List (Bytes × Handle)) (apis : List (Bytes × Bytes))
    (keyPrefix : Bytes) :
    ((∀ ldb, getDBByKeyPrefix dbs keyPrefix = Except.ok ldb → (keyPrefix, ldb) ∈ dbs)
      ∧ ((dbs.map (fun e => e.1)).Nodup → ∀ ldb, (keyPrefix, ldb) ∈ dbs →
          getDBByKeyPrefix dbs keyPrefix = Except.ok ldb)
      ∧ ((∃ ldb, (keyPrefix, ldb) ∈ dbs) → ∃ ldb, getDBByKeyPrefix dbs keyPrefix = Except.ok ldb)
      ∧ ((∀ ldb, (keyPrefix, ldb) ∉ dbs) →
          getDBByKeyPrefix dbs keyPrefix
            = Except.error (lit "不存在对应键前缀 " ++ keyPrefix ++ lit " 的leveldb数据库"))
      ∧ (∀ r1 r2, r1 = getDBByKeyPrefix dbs keyPrefix → r2 = getDBByKeyPrefix dbs keyPrefix →
          r1 = r2))
    ∧ ((∀ apiBase, (getAPIByKeyPrefix apis keyPrefix).1 = Except.ok apiBase →
          (keyPrefix, apiBase) ∈ apis)
      ∧ ((apis.map (fun e => e.1)).Nodup → ∀ apiBase, (keyPrefix, apiBase) ∈ apis →
          (getAPIByKeyPrefix apis keyPrefix).1 = Except.ok apiBase)
      ∧ ((∃ apiBase, (keyPrefix, apiBase) ∈ apis) →
          ∃ apiBase, (getAPIByKeyPrefix apis keyPrefix).1 = Except.ok apiBase)
      ∧ ((∀ apiBase, (keyPrefix, apiBase) ∉ apis) →
          (getAPIByKeyPrefix apis keyPrefix).1
            = Except.error (lit "不存在对应键前缀 " ++ keyPrefix ++ lit " 的leveldb API"))
      ∧ (∀ r1 r2, r1 = getAPIByKeyPrefix apis keyPrefix → r2 = getAPIByKeyPrefix apis keyPrefix →
          r1 = r2)) := by
  refine ⟨⟨?_, ?_, ?_, ?_, ?_⟩, ⟨?_, ?_, ?_, ?_, ?_⟩⟩
  · intro ldb h
    unfold getDBByKeyPrefix at h
    cases hm : mapIndex dbs keyPrefix with
    | none => simp [hm] at h
    | some x =>
      simp only [hm, Except.ok.injEq] at h
      exact h ▸ mapIndex_some_mem dbs keyPrefix x hm
  · intro hnd ldb h
    simp [getDBByKeyPrefix, mapIndex_of_nodup dbs keyPrefix ldb hnd h]
  · rintro ⟨ldb, h⟩
    cases hm : mapIndex dbs keyPrefix with
    | none =>
      exfalso
      have hnone : ∀ v, mapIndex dbs keyPrefix ≠ some v := by simp [hm]
      clear hm
      induction dbs with
      | nil => simp at h
      | cons a rest ih =>
        obtain ⟨k0, v0⟩ := a
        by_cases hk : k0 = keyPrefix
        · exact hnone v0 (by simp [mapIndex, hk])
        · rcases List.mem_cons.mp h with heq | hmem
          · simp only [Prod.mk.injEq] at heq
            exact hk heq.1.symm
          · exact ih hmem (fun v hv => hnone v (by simpa [mapIndex, hk] using hv))
    | some x => exact ⟨x, by simp [getDBByKeyPrefix, hm]⟩
  · intro h
    simp [getDBByKeyPrefix, mapIndex_none_of_not_key dbs keyPrefix h]
  · intro r1 r2 h1 h2
    rw [h1, h2]
  · intro apiBase h
    unfold getAPIByKeyPrefix at h
    cases hm : mapIndex apis keyPrefix with
    | none => simp [hm] at h
    | some x =>
      simp only [hm, Except.ok.injEq] at h
      exact h ▸ mapIndex_some_mem apis keyPrefix x hm
  · intro hnd apiBase h
    simp [getAPIByKeyPrefix, mapIndex_of_nodup apis keyPrefix apiBase hnd h]
  · rintro ⟨apiBase, h⟩
    cases hm : mapIndex apis keyPrefix with
    | none =>
      exfalso
      have hnone : ∀ v, mapIndex apis keyPrefix ≠ some v := by simp [hm]
      clear hm
      induction apis with
      | nil => simp at h
      | cons a rest ih =>
        obtain ⟨k0, v0⟩ := a
        by_cases hk : k0 = keyPrefix
        · exact hnone v0 (by simp [mapIndex, hk])
        · rcases List.mem_cons.mp h with heq | hmem
          · simp only [Prod.mk.injEq] at heq
            exact hk heq.1.symm
          · exact ih hmem (fun v hv => hnone v (by simpa [mapIndex, hk] using hv))
    | some x => exact ⟨x, by simp [getAPIByKeyPrefix, hm]⟩
  · intro h
    simp [getAPIByKeyPrefix, mapIndex_none_of_not_key apis keyPrefix h]
  · intro r1 r2 h1 h2
    rw [h1, h2]

/-- The witness of C4: with only "user:" registered, "user:" resolves to its
handle, and neither its leading part "user" nor its extension "user:1" does. -/
theorem registry_lookup_exact_witness :
    getDBByKeyPrefix [(lit "user:", 7)] (lit "user:") = Except.ok 7
      ∧ getDBByKeyPrefix [(lit "user:", 7)] (lit "user")
          = Except.error (lit "不存在对应键前缀 " ++ lit "user" ++ lit " 的leveldb数据库")
      ∧ (getAPIByKeyPrefix [(lit "user:", lit "http://h")] (lit "user:1")).1
          = Except.error (lit "不存在对应键前缀 " ++ lit "user:1" ++ lit " 的leveldb API") :=
  ⟨(registry_lookup_exact [(lit "user:", 7)] [] (lit "user:")).1.2.1 (by decide) 7 (by simp),
   (registry_lookup_exact [(lit "user:", 7)] [] (lit "user")).1.2.2.2.1
     (fun _ h => absurd (show lit "user" = lit "user:" from
        congrArg Prod.fst (List.mem_singleton.mp h)) (by decide)),
   (registry_lookup_exact [] [(lit "user:", lit "http://h")] (lit "user:1")).2.2.2.2.1
     (fun _ h => absurd (show lit "user:1" = lit "user:" from
        congrArg Prod.fst (List.mem_singleton.mp h)) (by decide))⟩

/-! ## The point-get handler -/

theorem jsonString_missingParam :
    jsonString (lit "缺少必要的请求参数") = lit "缺少必要的请求参数" := by decide

theorem jsonString_notFound : jsonString (lit "未找到对应值") = lit "未找到对应值" := by decide

/-- C5, as amended: `leveldbGet` writes exactly one envelope and leaves the
stores as they are.  Its envelope is BadRequest (400, data false) when
`keyprefix` or `key` is empty, and when the prefix is not registered;
otherwise, by the outcome of the lookup on the resolved store: NotFound (404,
data false) when the lookup reports `ErrNotFound`, InternalServerError (500,
data false) when it fails with a storage error, and OK (200) when it returns a
value, with as data that value as `json.Marshal` writes it: the stored value
itself when it is valid UTF-8, and otherwise the stored value with every byte
that is not part of a valid UTF-8 encoding replaced by U+FFFD.  The lookup
reports `ErrNotFound` exactly when no storage error occurs and the key is
missing from the store, and returns a value exactly when no storage error
occurs and the store holds that value under the key. -/
theorem leveldbGet_envelope (s : Server) (keyPrefix k : Bytes) (fault : Option Bytes) :
    (leveldbGet s keyPrefix k fault).resp.length = 1
      ∧ (leveldbGet s keyPrefix k fault).store = s.store
      ∧ ((keyPrefix = [] ∨ k = []) →
          (leveldbGet s keyPrefix k fault).resp =
            [{ Code := 400, Message := lit "缺少必要的请求参数", Data := Any.bool false }])
      ∧ (keyPrefix ≠ [] → k ≠ [] → ∀ err, getDBByKeyPrefix s.dbs keyPrefix = Except.error err →
          (leveldbGet s keyPrefix k fault).resp =
            [{ Code := 400, Message := jsonString err, Data := Any.bool false }])
      ∧ (keyPrefix ≠ [] → k ≠ [] → ∀ db, getDBByKeyPrefix s.dbs keyPrefix = Except.ok db →
          (DB.Get (s.store db) k fault = Except.error DBError.ErrNotFound →
            (leveldbGet s keyPrefix k fault).resp =
              [{ Code := 404, Message := lit "未找到对应值", Data := Any.bool false }])
          ∧ (∀ msg, DB.Get (s.store db) k fault = Except.error (DBError.failure msg) →
            (leveldbGet s keyPrefix k fault).resp =
              [{ Code := 500, Message := jsonString msg, Data := Any.bool false }])
          ∧ (∀ v, DB.Get (s.store db) k fault = Except.ok v →
            (leveldbGet s keyPrefix k fault).resp =
                [{ Code := 200, Message := statusMsg StatusOK,
                   Data := Any.string (jsonString v) }]
              ∧ (validUTF8 v = true →
                (leveldbGet s keyPrefix k fault).resp =
                  [{ Code := 200, Message := statusMsg StatusOK, Data := Any.string v }]))
          ∧ (DB.Get (s.store db) k fault = Except.error DBError.ErrNotFound ↔
              fault = none ∧ contentGet (s.store db) k = none)
          ∧ (∀ msg, DB.Get (s.store db) k fault = Except.error (DBError.failure msg) ↔
              fault = some msg)
          ∧ (∀ v, DB.Get (s.store db) k fault = Except.ok v ↔
              fault = none ∧ contentGet (s.store db) k = some v)) := by
  refine ⟨?_, ?_, ?_, ?_, ?_⟩
  · unfold leveldbGet
    split
    · simp [_respJSONError]
    · split
      · simp [_respJSONError]
      · split
        · split <;> simp [_respJSONError]
        · simp [_respJSON]
  · unfold leveldbGet
    split
    · rfl
    · split
      · rfl
      · split
        · split <;> rfl
        · rfl
  · intro h
    unfold leveldbGet
    rw [if_pos h]
    simp only [respJSONError_eq, jsonString_missingParam]
    rfl
  · intro hkp hk err herr
    unfold leveldbGet
    rw [if_neg (by simp [hkp, hk]), herr]
    simp only [respJSONError_eq]
    rfl
  · intro hkp hk db hreg
    refine ⟨?_, ?_, ?_, ?_, ?_, ?_⟩
    · intro hget
      unfold leveldbGet
      rw [if_neg (by simp [hkp, hk]), hreg]
      simp only [hget, respJSONError_eq, jsonString_notFound]
      rfl
    · intro msg hget
      unfold leveldbGet
      rw [if_neg (by simp [hkp, hk]), hreg]
      simp only [hget, respJSONError_eq]
      rfl
    · intro v hget
      have hmain : (leveldbGet s keyPrefix k fault).resp =
          [{ Code := 200, Message := statusMsg StatusOK, Data := Any.string (jsonString v) }] := by
        unfold leveldbGet
        rw [if_neg (by simp [hkp, hk]), hreg]
        simp only [hget, respJSON_eq, jsonAny]
        rfl
      refine ⟨hmain, ?_⟩
      intro hv
      rw [hmain, jsonString_of_valid v hv]
    · unfold DB.Get
      cases fault with
      | some msg => simp
      | none => cases contentGet (s.store db) k <;> simp
    · intro msg
      unfold DB.Get
      cases fault with
      | some m => simp
      | none => cases contentGet (s.store db) k <;> simp
    · intro v
      unfold DB.Get
      cases fault with
      | some msg => simp
      | none => cases contentGet (s.store db) k <;> simp

/-- The witness of C5: with "a" stored under the prefix "p", a get of the
missing key "b" answers NotFound, a get of "a" that meets a storage error
answers InternalServerError, and a get of "a" answers OK with the stored
value. -/
theorem leveldbGet_envelope_witness :
    (leveldbGet { dbs := [(lit "p", 0)], store := fun _ => [(lit "a", lit "1")] }
        (lit "p") (lit "b") none).resp =
        [{ Code := 404, Message := lit "未找到对应值", Data := Any.bool false }]
      ∧ (leveldbGet { dbs := [(lit "p", 0)], store := fun _ => [(lit "a", lit "1")] }
        (lit "p") (lit "a") (some (lit "read failed"))).resp =
        [{ Code := 500, Message := jsonString (lit "read failed"), Data := Any.bool false }]
      ∧ (leveldbGet { dbs := [(lit "p", 0)], store := fun _ => [(lit "a", lit "1")] }
        (lit "p") (lit "a") none).resp =
        [{ Code := 200, Message := statusMsg StatusOK, Data := Any.string (lit "1") }] :=
  ⟨(leveldbGet_envelope { dbs := [(lit "p", 0)], store := fun _ => [(lit "a", lit "1")] }
      (lit "p") (lit "b") none).2.2.2.2 (by decide) (by decide) 0 rfl |>.1 rfl,
   (leveldbGet_envelope { dbs := [(lit "p", 0)], store := fun _ => [(lit "a", lit "1")] }
      (lit "p") (lit "a") (some (lit "read failed"))).2.2.2.2 (by decide) (by decide) 0 rfl
      |>.2.1 (lit "read failed") rfl,
   (leveldbGet_envelope { dbs := [(lit "p", 0)], store := fun _ => [(lit "a", lit "1")] }
      (lit "p") (lit "a") none).2.2.2.2 (by decide) (by decide) 0 rfl
      |>.2.2.1 (lit "1") rfl |>.2 (by decide)⟩

/-- C5 as stated fails: with the value `ff` stored under the key "a", a get of
"a" answers OK with the data U+FFFD (`ef bf bd`), which is not the stored
value. -/
theorem leveldbGet_value_not_utf8 :
    getDBByKeyPrefix [(lit "p", 0)] (lit "p") = Except.ok 0
      ∧ DB.Get [(lit "a", [255])] (lit "a") none = Except.ok [255]
      ∧ (leveldbGet { dbs := [(lit "p", 0)], store := fun _ => [(lit "a", [255])] }
        (lit "p") (lit "a") none).resp =
        [{ Code := 200, Message := statusMsg StatusOK, Data := Any.string [239, 191, 189] }] :=
  ⟨rfl, rfl, rfl⟩

/-- C6: batch atomicity of the put and delete handlers.  For a registered
prefix, the handler makes one store call, a `Write` on the resolved store of
one batch that holds a record for each of the N items (or keys), in order, and
no other store changes.  If that write fails, the handler writes one
InternalServerError envelope with data false (its message the error's text as
`json.Marshal` writes it), the content of every store is
unchanged, and every later get answers as it would have before the request.
If it succeeds, the handler writes one OK envelope with data true and the
batch is applied: after a put each key of the request holds the value of its
last item and every other key is as before; after a delete each key of the
request is missing and every other key is as before.  An empty item list
succeeds with OK and leaves the stores unchanged. -/
theorem batch_write_atomic (s : Server) (db : Handle) (fault : Option Bytes) :
    (∀ reqBody : PutReqBodyT, getDBByKeyPrefix s.dbs reqBody.KeyPrefix = Except.ok db →
      (leveldbPut s (Body.parsed reqBody) fault).ops
          = [StoreOp.write db (reqBody.KV.map (fun kv => BatchRecord.put kv.K kv.V))]
        ∧ (∀ h, h ≠ db → (leveldbPut s (Body.parsed reqBody) fault).store h = s.store h)
        ∧ (∀ err, (DB.Write (s.store db)
              (reqBody.KV.map (fun kv => BatchRecord.put kv.K kv.V)) fault).2 = some err →
            (leveldbPut s (Body.parsed reqBody) fault).resp
                = [{ Code := 500, Message := jsonString err.Error, Data := Any.bool false }]
              ∧ (leveldbPut s (Body.parsed reqBody) fault).store = s.store
              ∧ ∀ kp k gfault,
                  leveldbGet { dbs := s.dbs,
                               store := (leveldbPut s (Body.parsed reqBody) fault).store }
                    kp k gfault = leveldbGet s kp k gfault)
        ∧ ((DB.Write (s.store db)
              (reqBody.KV.map (fun kv => BatchRecord.put kv.K kv.V)) fault).2 = none →
            (leveldbPut s (Body.parsed reqBody) fault).resp
                = [{ Code := 200, Message := statusMsg StatusOK, Data := Any.bool true }]
              ∧ (leveldbPut s (Body.parsed reqBody) fault).store db
                  = applyBatch (s.store db)
                      (reqBody.KV.map (fun kv => BatchRecord.put kv.K kv.V))
              ∧ (∀ before after k v, reqBody.KV = before ++ { K := k, V := v } :: after →
                  (∀ kv ∈ after, kv.K ≠ k) →
                  contentGet ((leveldbPut s (Body.parsed reqBody) fault).store db) k = some v)
              ∧ (∀ k, (∀ kv ∈ reqBody.KV, kv.K ≠ k) →
                  contentGet ((leveldbPut s (Body.parsed reqBody) fault).store db) k
                    = contentGet (s.store db) k))
        ∧ (reqBody.KV = [] →
            (leveldbPut s (Body.parsed reqBody) fault).resp
                = [{ Code := 200, Message := statusMsg StatusOK, Data := Any.bool true }]
              ∧ (leveldbPut s (Body.parsed reqBody) fault).store = s.store))
    ∧ (∀ reqBody : DelReqBodyT, getDBByKeyPrefix s.dbs reqBody.KeyPrefix = Except.ok db →
      (leveldbDel s (Body.parsed reqBody) fault).ops
          = [StoreOp.write db (reqBody.Keys.map (fun k => BatchRecord.delete k))]
        ∧ (∀ h, h ≠ db → (leveldbDel s (Body.parsed reqBody) fault).store h = s.store h)
        ∧ (∀ err, (DB.Write (s.store db)
              (reqBody.Keys.map (fun k => BatchRecord.delete k)) fault).2 = some err →
            (leveldbDel s (Body.parsed reqBody) fault).resp
                = [{ Code := 500, Message := jsonString err.Error, Data := Any.bool false }]
              ∧ (leveldbDel s (Body.parsed reqBody) fault).store = s.store
              ∧ ∀ kp k gfault,
                  leveldbGet { dbs := s.dbs,
                               store := (leveldbDel s (Body.parsed reqBody) fault).store }
                    kp k gfault = leveldbGet s kp k gfault)
        ∧ ((DB.Write (s.store db)
              (reqBody.Keys.map (fun k => BatchRecord.delete k)) fault).2 = none →
            (leveldbDel s (Body.parsed reqBody) fault).resp
                = [{ Code := 200, Message := statusMsg StatusOK, Data := Any.bool true }]
              ∧ (leveldbDel s (Body.parsed reqBody) fault).store db
                  = applyBatch (s.store db) (reqBody.Keys.map (fun k => BatchRecord.delete k))
              ∧ (∀ k ∈ reqBody.Keys,
                  contentGet ((leveldbDel s (Body.parsed reqBody) fault).store db) k = none)
              ∧ (∀ k, k ∉ reqBody.Keys →
                  contentGet ((leveldbDel s (Body.parsed reqBody) fault).store db) k
                    = contentGet (s.store db) k))
        ∧ (reqBody.Keys = [] →
            (leveldbDel s (Body.parsed reqBody) fault).resp
                = [{ Code := 200, Message := statusMsg StatusOK, Data := Any.bool true }]
              ∧ (leveldbDel s (Body.parsed reqBody) fault).store = s.store)) := by
  constructor
  · intro reqBody hreg
    rw [leveldbPut_registered s reqBody fault db hreg]
    rcases write_cases (s.store db) (reqBody.KV.map (fun kv => BatchRecord.put kv.K kv.V)) fault
      with ⟨hne, msg, _, hw⟩ | hw
    · rw [hw]
      refine ⟨rfl, ?_, ?_, ?_, ?_⟩
      · intro h hh
        simp [setStore, hh]
      · intro err herr
        simp only [Option.some.injEq] at herr
        subst herr
        refine ⟨respJSONError_eq _ _, setStore_self _ _, ?_⟩
        intro kp k gfault
        simp only [setStore_self]
      · intro h
        simp at h
      · intro h
        simp [h] at hne
    · rw [hw]
      refine ⟨rfl, ?_, ?_, ?_, ?_⟩
      · intro h hh
        simp [setStore, hh]
      · intro err herr
        simp at herr
      · intro _
        refine ⟨rfl, by simp [setStore], ?_, ?_⟩
        · intro before after k v hitems hlast
          simp only [setStore, if_true]
          rw [hitems]
          exact contentGet_puts_last _ before after k v hlast
        · intro k hk
          simp only [setStore, if_true]
          exact contentGet_puts_other _ _ k hk
      · intro h
        refine ⟨rfl, ?_⟩
        simp only [h, List.map_nil, applyBatch, List.foldl_nil]
        exact setStore_self _ _
  · intro reqBody hreg
    rw [leveldbDel_registered s reqBody fault db hreg]
    rcases write_cases (s.store db) (reqBody.Keys.map (fun k => BatchRecord.delete k)) fault
      with ⟨hne, msg, _, hw⟩ | hw
    · rw [hw]
      refine ⟨rfl, ?_, ?_, ?_, ?_⟩
      · intro h hh
        simp [setStore, hh]
      · intro err herr
        simp only [Option.some.injEq] at herr
        subst herr
        refine ⟨respJSONError_eq _ _, setStore_self _ _, ?_⟩
        intro kp k gfault
        simp only [setStore_self]
      · intro h
        simp at h
      · intro h
        simp [h] at hne
    · rw [hw]
      refine ⟨rfl, ?_, ?_, ?_, ?_⟩
      · intro h hh
        simp [setStore, hh]
      · intro err herr
        simp at herr
      · intro _
        refine ⟨rfl, by simp [setStore], ?_, ?_⟩
        · intro k hk
          simp only [setStore, if_true]
          rw [contentGet_deletes]
          simp [hk]
        · intro k hk
          simp only [setStore, if_true]
          rw [contentGet_deletes]
          simp [hk]
      · intro h
        refine ⟨rfl, ?_⟩
        simp only [h, List.map_nil, applyBatch, List.foldl_nil]
        exact setStore_self _ _

/-- The witness of C6: with "a" stored under the prefix "p", a put of two items
whose write fails answers InternalServerError and leaves the store as it was,
and a delete of "a" whose write succeeds answers OK and removes the key. -/
theorem batch_write_atomic_witness :
    ((leveldbPut { dbs := [(lit "p", 0)], store := fun _ => [(lit "a", lit "1")] }
        (Body.parsed { KeyPrefix := lit "p",
                       KV := [{ K := lit "a", V := lit "2" }, { K := lit "b", V := lit "3" }] })
        (some (lit "disk full"))).resp
        = [{ Code := 500,
             Message := jsonString (DBError.Error (DBError.failure (lit "disk full"))),
             Data := Any.bool false }]
      ∧ (leveldbPut { dbs := [(lit "p", 0)], store := fun _ => [(lit "a", lit "1")] }
        (Body.parsed { KeyPrefix := lit "p",
                       KV := [{ K := lit "a", V := lit "2" }, { K := lit "b", V := lit "3" }] })
        (some (lit "disk full"))).store = fun _ => [(lit "a", lit "1")])
    ∧ ((leveldbDel { dbs := [(lit "p", 0)], store := fun _ => [(lit "a", lit "1")] }
        (Body.parsed { KeyPrefix := lit "p", Keys := [lit "a"] }) none).resp
        = [{ Code := 200, Message := statusMsg StatusOK, Data := Any.bool true }]
      ∧ contentGet ((leveldbDel { dbs := [(lit "p", 0)], store := fun _ => [(lit "a", lit "1")] }
        (Body.parsed { KeyPrefix := lit "p", Keys := [lit "a"] }) none).store 0) (lit "a")
        = none) :=
  ⟨⟨((batch_write_atomic { dbs := [(lit "p", 0)], store := fun _ => [(lit "a", lit "1")] } 0
        (some (lit "disk full"))).1
        { KeyPrefix := lit "p",
          KV := [{ K := lit "a", V := lit "2" }, { K := lit "b", V := lit "3" }] } rfl).2.2.1
        (DBError.failure (lit "disk full")) rfl |>.1,
    ((batch_write_atomic { dbs := [(lit "p", 0)], store := fun _ => [(lit "a", lit "1")] } 0
        (some (lit "disk full"))).1
        { KeyPrefix := lit "p",
          KV := [{ K := lit "a", V := lit "2" }, { K := lit "b", V := lit "3" }] } rfl).2.2.1
        (DBError.failure (lit "disk full")) rfl |>.2.1⟩,
   ⟨((batch_write_atomic { dbs := [(lit "p", 0)], store := fun _ => [(lit "a", lit "1")] } 0
        none).2 { KeyPrefix := lit "p", Keys := [lit "a"] } rfl).2.2.2.1 rfl |>.1,
    ((batch_write_atomic { dbs := [(lit "p", 0)], store := fun _ => [(lit "a", lit "1")] } 0
        none).2 { KeyPrefix := lit "p", Keys := [lit "a"] } rfl).2.2.2.1 rfl |>.2.2.1
        (lit "a") (List.mem_singleton.mpr rfl)⟩⟩

/-! ## Shutdown -/

/-- The number of `Close` calls `finishDB` makes on a handle is the number of
prefixes the map `dbs` holds for it. -/
theorem finishDB_count (dbs : List (Bytes × Handle)) (h : Handle) :
    (finishDB dbs).count h = (dbs.filter (fun e => e.2 = h)).length := by
  unfold finishDB
  induction dbs with
  | nil => rfl
  | cons a rest ih =>
    by_cases ha : a.2 = h
    · rw [List.map_cons, ha, List.count_cons_self, ih]
      simp [List.filter, ha]
    · rw [List.map_cons, List.count_cons_of_ne (fun hh => ha hh.symm), ih]
      simp [List.filter, ha]

/-- C7 fails on the code.  With one store serving the two prefixes "a" and "b",
`initDB` opens one handle and `finishDB` calls `Close` on it twice; with one
store listed with no prefix, `initDB` opens one handle and `finishDB` calls
`Close` on none. -/
theorem finishDB_not_once :
    (initDB (fun _ => true) [(lit "db1", [lit "a", lit "b"])]
        = some ([(lit "a", 0), (lit "b", 0)], 1)
      ∧ finishDB [(lit "a", 0), (lit "b", 0)] = [0, 0]
      ∧ (finishDB [(lit "a", 0), (lit "b", 0)]).count 0 = 2)
    ∧ (initDB (fun _ => true) [(lit "db1", [])] = some ([], 1)
      ∧ finishDB [] = []
      ∧ (finishDB []).count 0 = 0) := by
  refine ⟨⟨by decide, by decide, by decide⟩, ⟨by decide, by decide, by decide⟩⟩

/-! ## Required parameters -/

/-- The three read handlers answer a request whose key prefix is empty with
BadRequest and data false, and call no store. -/
theorem read_handlers_require_keyPrefix (s : Server) (k start limit : Bytes)
    (fault : Option Bytes) (ifault : Option (Nat × Bytes)) :
    leveldbGet s [] k fault =
        { resp := [{ Code := 400, Message := lit "缺少必要的请求参数", Data := Any.bool false }],
          store := s.store, ops := [] }
      ∧ leveldbRangeGet s [] start limit ifault = some
        { resp := [{ Code := 400, Message := lit "缺少必要的请求参数", Data := Any.bool false }],
          store := s.store, ops := [] }
      ∧ leveldbGetByPrefix s [] k ifault = some
        { resp := [{ Code := 400, Message := lit "缺少必要的请求参数", Data := Any.bool false }],
          store := s.store, ops := [] } :=
  ⟨rfl, rfl, rfl⟩

/-- The put and delete handlers answer a request whose key prefix is empty with
BadRequest and data false, and call no store, when the prefix "" is not
registered. -/
theorem write_handlers_empty_keyPrefix_unregistered (s : Server) (kv : List KVItemT)
    (keys : List Bytes) (fault : Option Bytes) (h : ∀ db, ([], db) ∉ s.dbs) :
    leveldbPut s (Body.parsed { KeyPrefix := [], KV := kv }) fault =
        { resp := [{ Code := 400,
                     Message := lit "不存在对应键前缀 " ++ [] ++ lit " 的leveldb数据库",
                     Data := Any.bool false }],
          store := s.store, ops := [] }
      ∧ leveldbDel s (Body.parsed { KeyPrefix := [], Keys := keys }) fault =
        { resp := [{ Code := 400,
                     Message := lit "不存在对应键前缀 " ++ [] ++ lit " 的leveldb数据库",
                     Data := Any.bool false }],
          store := s.store, ops := [] } := by
  have hreg : getDBByKeyPrefix s.dbs []
      = Except.error (lit "不存在对应键前缀 " ++ [] ++ lit " 的leveldb数据库") := by
    simp [getDBByKeyPrefix, mapIndex_none_of_not_key s.dbs [] h]
  constructor
  · unfold leveldbPut
    simp only [hreg]
    rfl
  · unfold leveldbDel
    simp only [hreg]
    rfl

/-- C10 fails on the code.  With the prefix "" registered, a put and a delete
whose key prefix is empty are answered with OK, not BadRequest, and each makes
a write on the store: the put stores its pair and the delete removes one. -/
theorem write_handlers_accept_empty_keyPrefix :
    ((leveldbPut { dbs := [([], 0)], store := fun _ => [] }
        (Body.parsed { KeyPrefix := [], KV := [{ K := lit "a", V := lit "1" }] })
        none).resp.map (fun r => r.Code) = [200]
      ∧ (leveldbPut { dbs := [([], 0)], store := fun _ => [] }
        (Body.parsed { KeyPrefix := [], KV := [{ K := lit "a", V := lit "1" }] })
        none).ops = [StoreOp.write 0 [BatchRecord.put (lit "a") (lit "1")]]
      ∧ (leveldbPut { dbs := [([], 0)], store := fun _ => [] }
        (Body.parsed { KeyPrefix := [], KV := [{ K := lit "a", V := lit "1" }] })
        none).store 0 = [(lit "a", lit "1")])
    ∧ ((leveldbDel { dbs := [([], 0)], store := fun _ => [(lit "a", lit "1")] }
        (Body.parsed { KeyPrefix := [], Keys := [lit "a"] })
        none).resp.map (fun r => r.Code) = [200]
      ∧ (leveldbDel { dbs := [([], 0)], store := fun _ => [(lit "a", lit "1")] }
        (Body.parsed { KeyPrefix := [], Keys := [lit "a"] })
        none).ops = [StoreOp.write 0 [BatchRecord.delete (lit "a")]]
      ∧ (leveldbDel { dbs := [([], 0)], store := fun _ => [(lit "a", lit "1")] }
        (Body.parsed { KeyPrefix := [], Keys := [lit "a"] })
        none).store 0 = []) := by
  refine ⟨⟨by decide, by decide, by decide⟩, ⟨by decide, by decide, by decide⟩⟩

/-! ## The client -/

/-- What `getJSON` returns, by the outcome of `httpGet` and of `json.Unmarshal`:
it makes one transport call; on an `httpGet` error it records a diagnostic and
returns the zero envelope; on an empty body it returns the zero envelope and
records nothing; otherwise it returns the target of `json.Unmarshal`, and
records a diagnostic when that returned an error. -/
theorem getJSON_cases (env : Env) (url : Bytes) :
    (∀ b err, httpGet (env.transport url) = (b, some err) →
        getJSON env url = (zeroRespBodyT, [Diagnostic.error [err, url]], [url]))
      ∧ (httpGet (env.transport url) = ([], none) →
        getJSON env url = (zeroRespBodyT, [], [url]))
      ∧ (∀ body rBody err, body ≠ [] → httpGet (env.transport url) = (body, none) →
        env.jsonUnmarshal body zeroRespBodyT = (rBody, some err) →
        getJSON env url = (rBody, [Diagnostic.error [err, url, body]], [url]))
      ∧ (∀ body rBody, body ≠ [] → httpGet (env.transport url) = (body, none) →
        env.jsonUnmarshal body zeroRespBodyT = (rBody, none) →
        getJSON env url = (rBody, [], [url])) := by
  refine ⟨?_, ?_, ?_, ?_⟩
  · intro b err h
    unfold getJSON
    simp only [h]
  · intro h
    unfold getJSON
    simp only [h, List.length_nil, if_true]
  · intro body rBody err hbody h hdec
    have hlen : ¬ body.length = 0 := fun hl => hbody (List.length_eq_zero.mp hl)
    unfold getJSON
    simp only [h, hlen, if_false, hdec]
  · intro body rBody hbody h hdec
    have hlen : ¬ body.length = 0 := fun hl => hbody (List.length_eq_zero.mp hl)
    unfold getJSON
    simp only [h, hlen, if_false, hdec]

theorem getJSON_calls (env : Env) (url : Bytes) : (getJSON env url).2.2 = [url] := by
  have hc := getJSON_cases env url
  rcases hh : httpGet (env.transport url) with ⟨body, err⟩
  cases err with
  | some e => rw [hc.1 body e hh]
  | none =>
    cases body with
    | nil => rw [hc.2.1 hh]
    | cons b bs =>
      rcases hd : env.jsonUnmarshal (b :: bs) zeroRespBodyT with ⟨rBody, derr⟩
      cases derr with
      | some e => rw [hc.2.2.1 (b :: bs) rBody e (by simp) hh hd]
      | none => rw [hc.2.2.2 (b :: bs) rBody (by simp) hh hd]

theorem LeveldbGet_of_getJSON (env : Env) (ldb : LevelDBT) (key apiBase : Bytes)
    (rBody : RespBodyT) (logs2 : List Diagnostic) (calls : List Bytes)
    (hreg : mapIndex env.keyPrefix2APIBase ldb.KeyPrefix = some apiBase)
    (hj : getJSON env (getURL apiBase ldb.KeyPrefix key) = (rBody, logs2, calls)) :
    LevelDBT.LeveldbGet env ldb key =
      if rBody.Code ≠ StatusOK then
        { ret := Except.ok ([], false),
          logs := [] ++ logs2 ++
            (if rBody.Code ≠ StatusNotFound then [Diagnostic.errorResp rBody] else []),
          calls := calls }
      else
        match rBody.Data with
        | Any.string value =>
          { ret := Except.ok (value, true), logs := [] ++ logs2, calls := calls }
        | _ =>
          { ret := Except.error (lit "interface conversion: interface {} is not string"),
            logs := [] ++ logs2, calls := calls } := by
  unfold LevelDBT.LeveldbGet getAPIByKeyPrefix
  simp only [hreg, hj]

/-- The method `LeveldbGet`, for a registered client prefix, on the outcomes
that are no success: it makes one transport call in every case; it returns the
failure result and records a diagnostic when `httpGet` returns an error (the
transport call fails, the status is not 200, or reading the body fails) and
when the body is empty; and, when the body decodes without error, it returns
the absent result and records nothing for the code NotFound, and returns the
failure result and records a diagnostic for a code other than OK and
NotFound. -/
theorem LeveldbGet_translation (env : Env) (ldb : LevelDBT) (key apiBase : Bytes)
    (hreg : mapIndex env.keyPrefix2APIBase ldb.KeyPrefix = some apiBase) :
    (LevelDBT.LeveldbGet env ldb key).calls = [getURL apiBase ldb.KeyPrefix key]
      ∧ (∀ b err, httpGet (env.transport (getURL apiBase ldb.KeyPrefix key)) = (b, some err) →
          (LevelDBT.LeveldbGet env ldb key).ret = Except.ok ([], false)
            ∧ (LevelDBT.LeveldbGet env ldb key).logs.length = 2)
      ∧ (httpGet (env.transport (getURL apiBase ldb.KeyPrefix key)) = ([], none) →
          (LevelDBT.LeveldbGet env ldb key).ret = Except.ok ([], false)
            ∧ (LevelDBT.LeveldbGet env ldb key).logs.length = 1)
      ∧ (∀ body rBody, body ≠ [] →
          httpGet (env.transport (getURL apiBase ldb.KeyPrefix key)) = (body, none) →
          env.jsonUnmarshal body zeroRespBodyT = (rBody, none) →
          (rBody.Code = StatusNotFound →
            (LevelDBT.LeveldbGet env ldb key).ret = Except.ok ([], false)
              ∧ (LevelDBT.LeveldbGet env ldb key).logs = [])
          ∧ (rBody.Code ≠ StatusNotFound → rBody.Code ≠ StatusOK →
            (LevelDBT.LeveldbGet env ldb key).ret = Except.ok ([], false)
              ∧ (LevelDBT.LeveldbGet env ldb key).logs.length = 1)) := by
  have hc := getJSON_cases env (getURL apiBase ldb.KeyPrefix key)
  have hzero1 : zeroRespBodyT.Code ≠ StatusOK := by decide
  have hzero2 : zeroRespBodyT.Code ≠ StatusNotFound := by decide
  refine ⟨?_, ?_, ?_, ?_⟩
  · rcases hj : getJSON env (getURL apiBase ldb.KeyPrefix key) with ⟨rBody, logs2, calls⟩
    have hcalls := getJSON_calls env (getURL apiBase ldb.KeyPrefix key)
    rw [hj] at hcalls
    simp only [] at hcalls
    subst hcalls
    rw [LeveldbGet_of_getJSON env ldb key apiBase rBody logs2 _ hreg hj]
    split
    · rfl
    · split <;> rfl
  · intro b err h
    rw [LeveldbGet_of_getJSON env ldb key apiBase _ _ _ hreg (hc.1 b err h)]
    simp [hzero1, hzero2]
  · intro h
    rw [LeveldbGet_of_getJSON env ldb key apiBase _ _ _ hreg (hc.2.1 h)]
    simp [hzero1, hzero2]
  · intro body rBody hbody h hdec
    rw [LeveldbGet_of_getJSON env ldb key apiBase _ _ _ hreg (hc.2.2.2 body rBody hbody h hdec)]
    constructor
    · intro hcode
      have hne : ¬ StatusNotFound = StatusOK := by decide
      simp [hne, hcode]
    · intro hc1 hc2
      simp [hc1, hc2]

/-- C8 fails on the code.  For a registered client prefix, the transport
answers 200 with the body {"code":200,"message":7,"data":"v"}; `json.Unmarshal`
returns a type error for the field `message` and has filled `Code` and `Data`.
`getJSON` records the error and returns the envelope all the same, and
`LeveldbGet` returns the payload "v" with ok = true, not the failure result. -/
theorem LeveldbGet_undecodable_body_ok :
    (LevelDBT.LeveldbGet
      { keyPrefix2APIBase := [(lit "p", lit "http://h")],
        transport := fun _ =>
          HTTPReply.response 200 (lit "\x7b\"code\":200,\"message\":7,\"data\":\"v\"\x7d") none,
        jsonUnmarshal := fun _ v =>
          ({ v with Code := 200, Data := Any.string (lit "v") },
           some (lit "json: cannot unmarshal number into Go struct field RespBodyT.message")) }
      { KeyPrefix := lit "p" } (lit "a")).ret = Except.ok (lit "v", true)
    ∧ (LevelDBT.LeveldbGet
      { keyPrefix2APIBase := [(lit "p", lit "http://h")],
        transport := fun _ =>
          HTTPReply.response 200 (lit "\x7b\"code\":200,\"message\":7,\"data\":\"v\"\x7d") none,
        jsonUnmarshal := fun _ v =>
          ({ v with Code := 200, Data := Any.string (lit "v") },
           some (lit "json: cannot unmarshal number into Go struct field RespBodyT.message")) }
      { KeyPrefix := lit "p" } (lit "a")).logs.length = 1 := by
  constructor
  · rfl
  · decide

/-- C9 fails on the code.  For a registered client prefix and a response that
decodes without error to an envelope with code OK: `LeveldbGet` ends in a
run-time panic when the data is the boolean true; `LeveldbRangeGet` ends in a
panic when the data is null; `LeveldbGetByPrefix` ends in a panic when the
data is a list whose element is an object without the field k. -/
theorem client_reads_panic :
    (LevelDBT.LeveldbGet
      { keyPrefix2APIBase := [(lit "p", lit "http://h")],
        transport := fun _ => HTTPReply.response 200 (lit "body") none,
        jsonUnmarshal := fun _ v => ({ v with Code := 200, Data := Any.bool true }, none) }
      { KeyPrefix := lit "p" } (lit "a")).ret
        = Except.error (lit "interface conversion: interface {} is not string")
    ∧ (LevelDBT.LeveldbRangeGet
      { keyPrefix2APIBase := [(lit "p", lit "http://h")],
        transport := fun _ => HTTPReply.response 200 (lit "body") none,
        jsonUnmarshal := fun _ v => ({ v with Code := 200, Data := Any.nil }, none) }
      { KeyPrefix := lit "p" } (lit "a") (lit "b")).ret
        = Except.error (lit "interface conversion: interface {} is not []interface {}")
    ∧ (LevelDBT.LeveldbGetByPrefix
      { keyPrefix2APIBase := [(lit "p", lit "http://h")],
        transport := fun _ => HTTPReply.response 200 (lit "body") none,
        jsonUnmarshal := fun _ v =>
          ({ v with Code := 200, Data := Any.slice [Any.object [(lit "v", Any.string (lit "1"))]] },
           none) }
      { KeyPrefix := lit "p" } (lit "a")).ret
        = Except.error (lit "interface conversion: interface {} is not string") := by
  refine ⟨rfl, rfl, rfl⟩

end Lpi
